import Mathlib

set_option autoImplicit false

/-!
# Link-analysis board: graph data management and interchange

A shallow embedding of the graph store actions (`src/hooks/useCytoscapeActions.js`),
the import/export bridge (`src/storage.js`) and the Kumu converter
(`src/kumu-import.js`), followed by the properties proved about them.

The sources are JavaScript, so the embedding starts with the part of the
language runtime the sources rely on: values, truthiness, property reads,
string conversion, and the string methods `trim` and `toLowerCase`.
Exceptions are explicit: a computation that can throw returns `Except String`.

Three limits of the runtime model: numbers are integers (the sources never
compute with fractions; coordinates are only copied), a string is its
sequence of code points, and `toLowerCase` lowers the ASCII letters only.
-/

/-! ## Part 1. The JavaScript values the sources handle -/

/-- A JavaScript value: what `JSON.parse` yields, plus `undefined` and the
built-in members every object inherits from `Object.prototype`
(`builtin "constructor"` is the function `Object`, `builtin "__proto__"` is
`Object.prototype` itself, the others are its methods).  An object is the list
of its own properties in enumeration order. -/
inductive JSVal where
  | undefined
  | null
  | bool (b : Bool)
  | num (n : Int)
  | str (s : String)
  | arr (xs : List JSVal)
  | obj (ps : List (String × JSVal))
  | builtin (name : String)
  deriving Repr, Inhabited

/-- Own properties of an object, in enumeration order. -/
abbrev Props := List (String × JSVal)

namespace JSVal

mutual
/-- Structural equality of values is decidable. -/
def decEq : (a b : JSVal) → Decidable (a = b)
  | .undefined, b => by cases b <;> first | exact isTrue rfl | exact isFalse (by intro h; cases h)
  | .null, b => by cases b <;> first | exact isTrue rfl | exact isFalse (by intro h; cases h)
  | .bool x, .bool y =>
    if h : x = y then isTrue (by rw [h]) else isFalse (by intro e; cases e; exact h rfl)
  | .bool _, .undefined | .bool _, .null | .bool _, .num _ | .bool _, .str _ | .bool _, .arr _
  | .bool _, .obj _ | .bool _, .builtin _ => isFalse (by intro h; cases h)
  | .num x, .num y =>
    if h : x = y then isTrue (by rw [h]) else isFalse (by intro e; cases e; exact h rfl)
  | .num _, .undefined | .num _, .null | .num _, .bool _ | .num _, .str _ | .num _, .arr _
  | .num _, .obj _ | .num _, .builtin _ => isFalse (by intro h; cases h)
  | .str x, .str y =>
    if h : x = y then isTrue (by rw [h]) else isFalse (by intro e; cases e; exact h rfl)
  | .str _, .undefined | .str _, .null | .str _, .bool _ | .str _, .num _ | .str _, .arr _
  | .str _, .obj _ | .str _, .builtin _ => isFalse (by intro h; cases h)
  | .builtin x, .builtin y =>
    if h : x = y then isTrue (by rw [h]) else isFalse (by intro e; cases e; exact h rfl)
  | .builtin _, .undefined | .builtin _, .null | .builtin _, .bool _ | .builtin _, .str _
  | .builtin _, .arr _ | .builtin _, .obj _ | .builtin _, .num _ =>
    isFalse (by intro h; cases h)
  | .arr x, .arr y =>
    match decEqList x y with
    | isTrue h => isTrue (by rw [h])
    | isFalse h => isFalse (by intro e; cases e; exact h rfl)
  | .arr _, .undefined | .arr _, .null | .arr _, .bool _ | .arr _, .str _ | .arr _, .num _
  | .arr _, .obj _ | .arr _, .builtin _ => isFalse (by intro h; cases h)
  | .obj x, .obj y =>
    match decEqProps x y with
    | isTrue h => isTrue (by rw [h])
    | isFalse h => isFalse (by intro e; cases e; exact h rfl)
  | .obj _, .undefined | .obj _, .null | .obj _, .bool _ | .obj _, .str _ | .obj _, .num _
  | .obj _, .arr _ | .obj _, .builtin _ => isFalse (by intro h; cases h)
/-- Equality of arrays of values. -/
def decEqList : (a b : List JSVal) → Decidable (a = b)
  | [], [] => isTrue rfl
  | [], _ :: _ => isFalse (by intro h; cases h)
  | _ :: _, [] => isFalse (by intro h; cases h)
  | a :: as, b :: bs =>
    match decEq a b, decEqList as bs with
    | isTrue h, isTrue h' => isTrue (by rw [h, h'])
    | isFalse h, _ => isFalse (by intro e; cases e; exact h rfl)
    | _, isFalse h => isFalse (by intro e; cases e; exact h rfl)
/-- Equality of property lists. -/
def decEqProps : (a b : List (String × JSVal)) → Decidable (a = b)
  | [], [] => isTrue rfl
  | [], _ :: _ => isFalse (by intro h; cases h)
  | _ :: _, [] => isFalse (by intro h; cases h)
  | (k, a) :: as, (l, b) :: bs =>
    if hk : k = l then
      match decEq a b, decEqProps as bs with
      | isTrue h, isTrue h' => isTrue (by rw [hk, h, h'])
      | isFalse h, _ => isFalse (by intro e; cases e; exact h rfl)
      | _, isFalse h => isFalse (by intro e; cases e; exact h rfl)
    else isFalse (by intro e; cases e; exact hk rfl)
end

instance : DecidableEq JSVal := decEq

/-- JavaScript truthiness (`!!v`). -/
def truthy : JSVal → Bool
  | .undefined => false
  | .null => false
  | .bool b => b
  | .num n => n != 0
  | .str s => s != ""
  | .arr _ => true
  | .obj _ => true
  | .builtin _ => true

/-- The operator `a || b` on values. -/
def orElse (a b : JSVal) : JSVal := if a.truthy then a else b

/-- The test `v == null`, true of `null` and `undefined` only. -/
def nullish : JSVal → Bool
  | .undefined => true
  | .null => true
  | _ => false

/-- The test `Array.isArray(v)`. -/
def isArray : JSVal → Bool
  | .arr _ => true
  | _ => false

end JSVal

open JSVal

/-! ### Strings -/

/-- The characters `String.prototype.trim` strips (WhiteSpace and LineTerminator). -/
def isWhiteSpace (c : Char) : Bool :=
  [0x09, 0x0A, 0x0B, 0x0C, 0x0D, 0x20, 0xA0, 0x1680, 0x2028, 0x2029, 0x202F, 0x205F,
    0x3000, 0xFEFF].contains c.toNat
  || (0x2000 ≤ c.toNat && c.toNat ≤ 0x200A)

/-- The method `s.trim()`. -/
def trim (s : String) : String :=
  ⟨((s.data.dropWhile isWhiteSpace).reverse.dropWhile isWhiteSpace).reverse⟩

/-- The method `s.toLowerCase()` on the ASCII letters. -/
def toLowerCase (s : String) : String := ⟨s.data.map Char.toLower⟩

/-- Pieces of a character list between the occurrences of `sep`. -/
def splitChars (sep : Char) : List Char → List (List Char)
  | [] => [[]]
  | c :: cs =>
    if c = sep then [] :: splitChars sep cs
    else
      match splitChars sep cs with
      | [] => [[c]]
      | p :: ps => (c :: p) :: ps

/-- The method `s.split(',')`. -/
def splitComma (s : String) : List String := (splitChars ',' s.data).map String.mk

/-- The decimal digit `d` as a character. -/
def digitChar (d : Nat) : Char := Char.ofNat (48 + d)

/-- Decimal digits of `n`, most significant first, pushed in front of `acc`. -/
def natDigits : Nat → Nat → List Char → List Char
  | 0, _, acc => acc
  | fuel + 1, n, acc =>
    if n < 10 then digitChar n :: acc
    else natDigits fuel (n / 10) (digitChar (n % 10) :: acc)

/-- The string of a non-negative integer, as `String(n)` and `'' + n` give it. -/
def natToString (n : Nat) : String := ⟨natDigits (n + 1) n []⟩

/-- The string of an integer. -/
def intToString : Int → String
  | .ofNat n => natToString n
  | .negSucc n => "-" ++ natToString (n + 1)

/-! ### Property reads, method calls, conversion to string -/

/-- Names of the members every object inherits from `Object.prototype`. -/
def objectPrototypeKeys : List String :=
  ["constructor", "__proto__", "hasOwnProperty", "isPrototypeOf", "propertyIsEnumerable",
    "toLocaleString", "toString", "valueOf", "__defineGetter__", "__defineSetter__",
    "__lookupGetter__", "__lookupSetter__"]

/-- What a read of `k` finds on `Object.prototype`. -/
def inherited (k : String) : JSVal :=
  if objectPrototypeKeys.contains k then .builtin k else .undefined

/-- The read `o[k]` on a plain object with own properties `ps`. -/
def objGet (ps : Props) (k : String) : JSVal :=
  match ps.lookup k with
  | some v => v
  | none => inherited k

/-- The element at the index written `k`, when `k` is the decimal form of an index. -/
def atIndexKey {α : Type} (xs : List α) (k : String) : Option α :=
  (xs.enum.find? (fun p => natToString p.1 == k)).map (fun p => p.2)

/-- The read `v[k]` (or `v.k`).  It throws on `null` and `undefined`.  Arrays and
strings answer `length` and their indices; the method names of
`Array.prototype` and `String.prototype`, which the sources never read as
data, are not listed. -/
def getProp (v : JSVal) (k : String) : Except String JSVal :=
  match v with
  | .undefined => .error "TypeError: Cannot read properties of undefined"
  | .null => .error "TypeError: Cannot read properties of null"
  | .obj ps => .ok (objGet ps k)
  | .arr xs =>
    if k = "length" then .ok (.num xs.length)
    else
      match atIndexKey xs k with
      | some x => .ok x
      | none => .ok (inherited k)
  | .str s =>
    if k = "length" then .ok (.num s.data.length)
    else
      match atIndexKey s.data k with
      | some c => .ok (.str ⟨[c]⟩)
      | none => .ok (inherited k)
  | _ => .ok (inherited k)

/-- The receiver of an array method call (`.map`, `.filter`, `.forEach`): the
call throws unless the receiver is an array. -/
def arrayReceiver (m : String) : JSVal → Except String (List JSVal)
  | .arr xs => .ok xs
  | _ => .error ("TypeError: " ++ m ++ " is not a function")

/-- The receiver of a string method call (`.trim`, `.toLowerCase`): the call
throws unless the receiver is a string. -/
def stringReceiver (m : String) : JSVal → Except String String
  | .str s => .ok s
  | _ => .error ("TypeError: " ++ m ++ " is not a function")

/-- The keys `Object.keys(v)` lists. -/
def objectKeys : JSVal → Except String (List String)
  | .undefined => .error "TypeError: Cannot convert undefined or null to object"
  | .null => .error "TypeError: Cannot convert undefined or null to object"
  | .obj ps => .ok (ps.map (fun p => p.1))
  | .arr xs => .ok ((List.range xs.length).map natToString)
  | .str s => .ok ((List.range s.data.length).map natToString)
  | _ => .ok []

instance {ε α : Type} [DecidableEq ε] [DecidableEq α] : DecidableEq (Except ε α)
  | .ok a, .ok b => if h : a = b then isTrue (by rw [h]) else isFalse (by intro e; cases e; exact h rfl)
  | .error a, .error b =>
    if h : a = b then isTrue (by rw [h]) else isFalse (by intro e; cases e; exact h rfl)
  | .ok _, .error _ => isFalse (by intro h; cases h)
  | .error _, .ok _ => isFalse (by intro h; cases h)

/-- Maps `f` over a list and stops at the first exception. -/
def mapE {α β : Type} (f : α → Except String β) : List α → Except String (List β)
  | [] => .ok []
  | x :: xs =>
    match f x with
    | .error e => .error e
    | .ok y =>
      match mapE f xs with
      | .error e => .error e
      | .ok ys => .ok (y :: ys)

/-- Keeps the entries `f` accepts and stops at the first exception. -/
def filterE {α : Type} (f : α → Except String Bool) : List α → Except String (List α)
  | [] => .ok []
  | x :: xs =>
    match f x with
    | .error e => .error e
    | .ok b =>
      match filterE f xs with
      | .error e => .error e
      | .ok ys => .ok (if b then x :: ys else ys)

/-- Folds `f` over a list from the left and stops at the first exception. -/
def foldE {α σ : Type} (f : σ → α → Except String σ) : σ → List α → Except String σ
  | s, [] => .ok s
  | s, x :: xs =>
    match f s x with
    | .error e => .error e
    | .ok s' => foldE f s' xs

mutual
/-- The conversion `String(v)`, also used for template strings and property
keys.  An object with an own `toString` entry (never callable in parsed JSON)
cannot be converted. -/
def toStr : JSVal → Except String String
  | .undefined => .ok "undefined"
  | .null => .ok "null"
  | .bool true => .ok "true"
  | .bool false => .ok "false"
  | .num n => .ok (intToString n)
  | .str s => .ok s
  | .arr xs =>
    match toStrs xs with
    | .error e => .error e
    | .ok ss => .ok (",".intercalate ss)
  | .obj ps =>
    match ps.lookup "toString" with
    | some _ => .error "TypeError: Cannot convert object to primitive value"
    | none => .ok "[object Object]"
  | .builtin k =>
    if k = "__proto__" then .ok "[object Object]"
    else if k = "constructor" then .ok "function Object() \x7b [native code] \x7d"
    else .ok ("function " ++ k ++ "() \x7b [native code] \x7d")
/-- The pieces `Array.prototype.join` glues: empty for `null` and `undefined`. -/
def toStrs : List JSVal → Except String (List String)
  | [] => .ok []
  | x :: xs =>
    match (if x.nullish then Except.ok "" else toStr x) with
    | .error e => .error e
    | .ok s =>
      match toStrs xs with
      | .error e => .error e
      | .ok ss => .ok (s :: ss)
end

/-- Hexadecimal digit of `d < 16`, lower case. -/
def hexChar (d : Nat) : Char := if d < 10 then Char.ofNat (48 + d) else Char.ofNat (87 + d)

/-- One character inside a JSON string literal. -/
def jsonEscape (c : Char) : List Char :=
  if c = '"' then ['\\', '"']
  else if c = '\\' then ['\\', '\\']
  else if c = '\n' then ['\\', 'n']
  else if c = '\r' then ['\\', 'r']
  else if c = '\t' then ['\\', 't']
  else if c.toNat = 8 then ['\\', 'b']
  else if c.toNat = 12 then ['\\', 'f']
  else if c.toNat < 32 then ['\\', 'u', '0', '0', hexChar (c.toNat / 16), hexChar (c.toNat % 16)]
  else [c]

/-- A string as a JSON string literal. -/
def jsonQuote (s : String) : String := ⟨'"' :: (s.data.flatMap jsonEscape ++ ['"'])⟩

mutual
/-- The text `JSON.stringify(v)`; `none` where it gives `undefined`. -/
def stringify : JSVal → Option String
  | .undefined => none
  | .null => some "null"
  | .bool true => some "true"
  | .bool false => some "false"
  | .num n => some (intToString n)
  | .str s => some (jsonQuote s)
  | .arr xs => some ("[" ++ ",".intercalate (stringifyItems xs) ++ "]")
  | .obj ps => some ("\x7b" ++ ",".intercalate (stringifyProps ps) ++ "\x7d")
  | .builtin k => if k = "__proto__" then some "\x7b\x7d" else none
/-- The items of an array in JSON text; what has no JSON form becomes `null`. -/
def stringifyItems : List JSVal → List String
  | [] => []
  | x :: xs =>
    (match stringify x with
      | some s => s
      | none => "null") :: stringifyItems xs
/-- The members of an object in JSON text; what has no JSON form is left out. -/
def stringifyProps : List (String × JSVal) → List String
  | [] => []
  | (k, x) :: ps =>
    match stringify x with
    | some s => (jsonQuote k ++ ":" ++ s) :: stringifyProps ps
    | none => stringifyProps ps
end

/-! ## Part 2. The Kumu converter (`src/kumu-import.js`) -/

namespace Kumu

/-- The table `KUMU_TYPE_MAP`. -/
def KUMU_TYPE_MAP : Props :=
  [("person", .str "Person"), ("organization", .str "Organization"), ("event", .str "Event"),
    ("location", .str "Organization")]

/-- The table `KUMU_RELATIONSHIP_MAP`. -/
def KUMU_RELATIONSHIP_MAP : Props :=
  [("financial", .str "Financial"), ("personal", .str "Personal"),
    ("professional", .str "Professional"), ("criminal", .str "Criminal"),
    ("communication", .str "Communication"), ("family", .str "Family")]

/-- The table `META_ATTRS`: key and label, in display order. -/
def META_ATTRS : List (String × String) :=
  [("ideology", "Ideology"), ("activity level", "Activity Level"),
    ("operational status", "Operational Status"), ("organization type", "Organization Type"),
    ("size", "Size")]

/-- The assignment `o[k] = v` on own properties: an existing entry keeps its
place, a new one goes last. -/
def setProp (ps : Props) (k : String) (v : JSVal) : Props :=
  match ps with
  | [] => [(k, v)]
  | (k', v') :: rest => if k' = k then (k, v) :: rest else (k', v') :: setProp rest k v

/-- The object `posMap` of `buildPositionMap`: its own properties and, once a
value was assigned through the key `__proto__`, the object that replaced its
prototype. -/
structure PosMap where
  own : Props
  proto : Option Props

/-- The assignment `posMap[k] = v`, where `v` is an object with properties `ps`. -/
def PosMap.set (m : PosMap) (k : String) (ps : Props) : PosMap :=
  if k = "__proto__" then { m with proto := some ps }
  else { m with own := setProp m.own k (.obj ps) }

/-- The read `positionMap[k]`. -/
def PosMap.get (m : PosMap) (k : String) : JSVal :=
  match m.own.lookup k with
  | some v => v
  | none =>
    match m.proto with
    | none => inherited k
    | some ps => if k = "__proto__" then .obj ps else objGet ps k

/-- One round of the `forEach` in `buildPositionMap`. -/
def addPosition (posMap : PosMap) (mapEl : JSVal) : Except String PosMap :=
  match getProp mapEl "element" with
  | .error e => .error e
  | .ok element =>
    if !element.truthy then .ok posMap
    else
      match getProp mapEl "position" with
      | .error e => .error e
      | .ok position =>
        if !position.truthy then .ok posMap
        else
          match getProp position "x" with
          | .error e => .error e
          | .ok x =>
            if x.nullish then .ok posMap
            else
              match getProp position "y" with
              | .error e => .error e
              | .ok y =>
                if y.nullish then .ok posMap
                else
                  match toStr element with
                  | .error e => .error e
                  | .ok key => .ok (posMap.set key [("x", x), ("y", y)])

/-- The function `buildPositionMap(maps)`. -/
def buildPositionMap (maps : JSVal) : Except String PosMap :=
  let posMap : PosMap := ⟨[], none⟩
  if !maps.truthy then .ok posMap
  else
    match getProp maps "length" with
    | .error e => .error e
    | .ok len =>
      if len = .num 0 then .ok posMap
      else
        match getProp maps "0" with
        | .error e => .error e
        | .ok firstMap =>
          match getProp firstMap "elements" with
          | .error e => .error e
          | .ok els =>
            if !els.truthy then .ok posMap
            else
              match arrayReceiver "forEach" els with
              | .error e => .error e
              | .ok items => foldE addPosition posMap items

/-- The normal form `s.toLowerCase().trim()` of a value used as a string; the
method call throws when the value is not a string. -/
def normalized (v : JSVal) : Except String String :=
  match stringReceiver "toLowerCase" v with
  | .error e => .error e
  | .ok s => .ok (trim (toLowerCase s))

/-- The function `mapNodeType(kumuType)`. -/
def mapNodeType (kumuType : JSVal) : Except String JSVal :=
  if !kumuType.truthy then .ok (.str "Person")
  else
    match normalized kumuType with
    | .error e => .error e
    | .ok key => .ok ((objGet KUMU_TYPE_MAP key).orElse (.str "Person"))

/-- The tags `buildMetadata` puts first: `[Location]`, then the bracketed
original type when the table does not know it. -/
def typeTags (resolvedType originalType : JSVal) : Except String (List String) :=
  if !originalType.truthy then .ok []
  else
    match normalized originalType with
    | .error e => .error e
    | .ok key =>
      let first :=
        if key = "location" ∧ resolvedType = .str "Organization" then ["[Location]"] else []
      match stringReceiver "trim" originalType with
      | .error e => .error e
      | .ok original =>
        let second :=
          if key ≠ "location" ∧ !(objGet KUMU_TYPE_MAP key).truthy ∧ trim original ≠ "" then
            ["[" ++ trim original ++ "]"]
          else []
        .ok (first ++ second)

/-- The description line of `buildMetadata`. -/
def descriptionPart (attrs : JSVal) : Except String (List String) :=
  match getProp attrs "description" with
  | .error e => .error e
  | .ok d =>
    match stringReceiver "trim" (d.orElse (.str "")) with
    | .error e => .error e
    | .ok desc => .ok (if trim desc ≠ "" then [trim desc] else [])

/-- One round of the `META_ATTRS.forEach` in `buildMetadata`. -/
def metaPart (attrs : JSVal) (entry : String × String) : Except String (List String) :=
  match getProp attrs entry.1 with
  | .error e => .error e
  | .ok val =>
    if !val.truthy then .ok []
    else
      match toStr val with
      | .error e => .error e
      | .ok s => .ok (if trim s ≠ "" then [entry.2 ++ ": " ++ trim s] else [])

/-- The function `buildMetadata(attrs, resolvedType, originalType)`. -/
def buildMetadata (attrs resolvedType originalType : JSVal) : Except String String :=
  match typeTags resolvedType originalType with
  | .error e => .error e
  | .ok tags =>
    match descriptionPart attrs with
    | .error e => .error e
    | .ok desc =>
      match mapE (metaPart attrs) META_ATTRS with
      | .error e => .error e
      | .ok extras => .ok ("\n".intercalate (tags ++ desc ++ extras.flatten))

/-- The function `buildTags(kumuTags)`. -/
def buildTags (kumuTags : JSVal) : String :=
  if !kumuTags.truthy then "[]"
  else
    match kumuTags with
    | .arr xs => (stringify (.arr xs)).getD "[]"
    | .str s =>
      if trim s ≠ "" then
        (stringify (.arr (((splitComma s).map trim).filter (fun t => t ≠ "") |>.map .str))).getD
          "[]"
      else "[]"
    | _ => "[]"

/-- The function `mapRelationship(connectionType, kumuLabel)`: the pair
`relationship`, `customLabel`. -/
def mapRelationship (connectionType kumuLabel : JSVal) : Except String (JSVal × JSVal) :=
  if !connectionType.truthy ∧ !kumuLabel.truthy then .ok (.str "Unknown", .str "")
  else
    match (if connectionType.truthy then normalized connectionType else .ok "") with
    | .error e => .error e
    | .ok ct =>
      let mapped := objGet KUMU_RELATIONSHIP_MAP ct
      if mapped.truthy then .ok (mapped, kumuLabel.orElse (.str ""))
      else .ok (.str "Unknown", connectionType.orElse (kumuLabel.orElse (.str "")))

/-- The function `mapDirection(dir)`. -/
def mapDirection (dir : JSVal) : Except String String :=
  if !dir.truthy then .ok "directed"
  else
    match normalized dir with
    | .error e => .error e
    | .ok d => .ok (if d = "directed" ∨ d = "mutual" ∨ d = "undirected" then d else "directed")

/-- The function `getAttr(attrs, key)`: the exact key first, then the first
key that matches without regard to case. -/
def getAttr (attrs : JSVal) (key : String) : Except String JSVal :=
  match getProp attrs key with
  | .error e => .error e
  | .ok v =>
    if v ≠ .undefined then .ok v
    else
      match objectKeys attrs with
      | .error e => .error e
      | .ok keys =>
        match keys.find? (fun k => toLowerCase k = toLowerCase key) with
        | some k => getProp attrs k
        | none => .ok .undefined

/-- The callback of `elements.map` in `convertKumuToNative`: one element to
one native node. -/
def convertElement (positionMap : PosMap) (element : JSVal) : Except String JSVal :=
  match getProp element "attributes" with
  | .error e => .error e
  | .ok a =>
    let attrs := a.orElse (.obj [])
    match getAttr attrs "element type" with
    | .error e => .error e
    | .ok t =>
      let originalType := t.orElse (.str "")
      match mapNodeType originalType with
      | .error e => .error e
      | .ok nodeType =>
        match buildMetadata attrs nodeType originalType with
        | .error e => .error e
        | .ok metadata =>
          match getAttr attrs "tags", getProp element "_id" with
          | .error e, _ => .error e
          | _, .error e => .error e
          | .ok kumuTags, .ok id =>
            match toStr id, getAttr attrs "label", getAttr attrs "image",
              getAttr attrs "location" with
            | .error e, _, _, _ => .error e
            | _, .error e, _, _ => .error e
            | _, _, .error e, _ => .error e
            | _, _, _, .error e => .error e
            | .ok key, .ok label, .ok image, .ok location =>
              let position := positionMap.get key
              let nodeData : Props :=
                [("id", id), ("label", label.orElse id), ("nodeType", nodeType),
                  ("metadata", .str metadata), ("role", .str ""), ("aliases", .str ""),
                  ("status", .str ""), ("avatarUrl", image.orElse (.str "")),
                  ("location", location.orElse (.str "")), ("dob", .str ""),
                  ("eventType", .str ""), ("eventDate", .str ""), ("eventLocation", .str ""),
                  ("eventDescription", .str ""), ("tags", .str (buildTags kumuTags))]
              .ok (.obj
                (if position.truthy then [("data", .obj nodeData), ("position", position)]
                else [("data", .obj nodeData)]))

/-- The callback of `connections.filter` in `convertKumuToNative`. -/
def keepConnection (conn : JSVal) : Except String Bool :=
  match getProp conn "from" with
  | .error e => .error e
  | .ok src =>
    if !src.truthy then .ok false
    else
      match getProp conn "to" with
      | .error e => .error e
      | .ok tgt => .ok tgt.truthy

/-- The callback of `.map` on the kept connections in `convertKumuToNative`:
one connection to one native edge. -/
def convertConnection (conn : JSVal) : Except String JSVal :=
  match getProp conn "attributes" with
  | .error e => .error e
  | .ok a =>
    let attrs := a.orElse (.obj [])
    match getAttr attrs "connection type", getAttr attrs "label" with
    | .error e, _ => .error e
    | _, .error e => .error e
    | .ok connectionType, .ok kumuLabel =>
      match mapRelationship connectionType kumuLabel with
      | .error e => .error e
      | .ok (relationship, customLabel) =>
        let displayLabel := customLabel.orElse relationship
        match getProp conn "_id", getProp conn "from", getProp conn "to",
          getProp conn "direction" with
        | .error e, _, _, _ => .error e
        | _, .error e, _, _ => .error e
        | _, _, .error e, _ => .error e
        | _, _, _, .error e => .error e
        | .ok id, .ok src, .ok tgt, .ok dir =>
          match mapDirection dir, getAttr attrs "description" with
          | .error e, _ => .error e
          | _, .error e => .error e
          | .ok direction, .ok description =>
            .ok (.obj [("data", .obj
              [("id", id), ("source", src), ("target", tgt), ("label", displayLabel),
                ("relationship", relationship), ("weight", .num 2),
                ("direction", .str direction), ("customLabel", customLabel),
                ("description", description.orElse (.str "")), ("evidenceRef", .str ""),
                ("confidence", .str "Confirmed"), ("startDate", .str ""), ("endDate", .str ""),
                ("eventDate", .str ""), ("evidenceItems", .str "[]"), ("location", .str "")])])

/-- The function `convertKumuToNative(kumuData)`: the object `{ nodes, edges }`,
or the exception that escapes. -/
def convertKumuToNative (kumuData : JSVal) : Except String JSVal :=
  match getProp kumuData "version" with
  | .error e => .error e
  | .ok version =>
    match (if version.truthy ∧ version ≠ .num 1 then toStr version else .ok "") with
    | .error e => .error e
    | .ok _ =>
      match getProp kumuData "maps" with
      | .error e => .error e
      | .ok maps =>
        match buildPositionMap maps with
        | .error e => .error e
        | .ok positionMap =>
          match getProp kumuData "elements" with
          | .error e => .error e
          | .ok els =>
            match arrayReceiver "map" (els.orElse (.arr [])) with
            | .error e => .error e
            | .ok elements =>
              match mapE (convertElement positionMap) elements with
              | .error e => .error e
              | .ok nodes =>
                match getProp kumuData "connections" with
                | .error e => .error e
                | .ok cs =>
                  match arrayReceiver "filter" (cs.orElse (.arr [])) with
                  | .error e => .error e
                  | .ok connections =>
                    match filterE keepConnection connections with
                    | .error e => .error e
                    | .ok kept =>
                      match mapE convertConnection kept with
                      | .error e => .error e
                      | .ok edges => .ok (.obj [("nodes", .arr nodes), ("edges", .arr edges)])

end Kumu

/-! ## Part 3. Constants (`src/constants.js`) -/

/-- The table `NODE_COLORS`. -/
def NODE_COLORS : Props :=
  [("Person", .str "#3b82f6"), ("Organization", .str "#22c55e"), ("Phone", .str "#f59e0b"),
    ("Event", .str "#a855f7")]

/-- The table `NODE_SHAPES`. -/
def NODE_SHAPES : Props :=
  [("Person", .str "ellipse"), ("Organization", .str "rectangle"), ("Phone", .str "diamond"),
    ("Event", .str "star")]

/-- The table `RELATIONSHIP_COLORS`. -/
def RELATIONSHIP_COLORS : Props :=
  [("Financial", .str "#22c55e"), ("Personal", .str "#3b82f6"), ("Professional", .str "#a855f7"),
    ("Criminal", .str "#ef4444"), ("Communication", .str "#f59e0b"), ("Family", .str "#ec4899"),
    ("Unknown", .str "#6b7280")]

/-! ## Part 4. The element collection of the rendering engine

The store is the element collection of the rendering engine (Cytoscape.js),
an external collaborator.  This part states the behaviour of the engine calls
the sources make: `cy.add`, `cy.getElementById`, `eles.remove`, `ele.move`,
`ele.data`.  An engine error is an exception (the engine throws before it
changes anything). -/

namespace Cytoscape

open Kumu (setProp)

/-- The group of an element. -/
inductive Group where
  | nodes
  | edges
  deriving DecidableEq, Repr

/-- One element of the collection: its group, its data object, the position it
was given (nodes), and whether `hide()` was applied to it. -/
structure Ele where
  group : Group
  data : Props
  position : JSVal
  hidden : Bool
  deriving DecidableEq

/-- The engine instance `cy`: its elements in insertion order. -/
structure Cy where
  elements : List Ele
  deriving DecidableEq

/-- The read `ele.data(k)`. -/
def Ele.get (e : Ele) (k : String) : JSVal := objGet e.data k

/-- The collection `cy.nodes()`. -/
def Cy.nodes (cy : Cy) : List Ele := cy.elements.filter (fun e => e.group = .nodes)

/-- The collection `cy.edges()`. -/
def Cy.edges (cy : Cy) : List Ele := cy.elements.filter (fun e => e.group = .edges)

/-- The ids of all elements. -/
def Cy.ids (cy : Cy) : List JSVal := cy.elements.map (fun e => e.get "id")

/-- The call `cy.getElementById(id)`: the element, or `none` for the empty
collection.  Ids in the collection are strings, so only a string finds one. -/
def Cy.getElementById (cy : Cy) (id : JSVal) : Option Ele :=
  match id with
  | .str _ => cy.elements.find? (fun e => e.get "id" = id)
  | _ => none

/-- The test `cy.hasElementWithId(id)`. -/
def Cy.hasElementWithId (cy : Cy) (id : JSVal) : Bool := (cy.getElementById id).isSome

/-- A number used as an id becomes its string, as the engine does on `add`. -/
def idString (v : JSVal) : JSVal :=
  match v with
  | .num n => .str (intToString n)
  | _ => v

/-- The id the engine settles on for a new element: a generated one (`fresh`)
when none is given, the string of a number; any other value that is not a
non-empty string, and an id already in use, are refused. -/
def Cy.settleId (cy : Cy) (fresh : String) (data : Props) : Except String Props :=
  match objGet data "id" with
  | .undefined => .ok (setProp data "id" (.str fresh))
  | .num n => .ok (setProp data "id" (.str (intToString n)))
  | .str s =>
    if s = "" then .error "Error: Can not create element with invalid string ID"
    else if cy.hasElementWithId (.str s) then .error "Error: Can not create second element with ID"
    else .ok data
  | _ => .error "Error: Can not create element with invalid string ID"

/-- The endpoint check of `add` for the field `field` of an edge. -/
def Cy.settleEndpoint (cy : Cy) (field : String) (data : Props) : Except String Props :=
  let v := idString (objGet data field)
  if v.nullish ∨ v = .str "" then .error ("Error: Can not create edge with unspecified " ++ field)
  else if !cy.hasElementWithId v then
    .error ("Error: Can not create edge with nonexistant " ++ field)
  else .ok (if v = objGet data field then data else setProp data field v)

/-- The parent check of `add` for a node with the settled id `id`: a parent
that does not exist, or that is the node itself, is dropped from the data. -/
def Cy.settleParent (cy : Cy) (data : Props) : Props :=
  let p := idString (objGet data "parent")
  if p.nullish then data
  else if !cy.hasElementWithId p ∨ p = objGet data "id" then setProp data "parent" .undefined
  else if p = objGet data "parent" then data
  else setProp data "parent" p

/-- The call `cy.add(\x7b group, data, position \x7d)`. -/
def Cy.add (cy : Cy) (fresh : String) (group : Group) (data : Props) (position : JSVal) :
    Except String Cy :=
  match cy.settleId fresh data with
  | .error e => .error e
  | .ok d1 =>
    match group with
    | .nodes => .ok ⟨cy.elements ++ [⟨.nodes, cy.settleParent d1, position, false⟩]⟩
    | .edges =>
      match cy.settleEndpoint "source" d1 with
      | .error e => .error e
      | .ok d2 =>
        match cy.settleEndpoint "target" d2 with
        | .error e => .error e
        | .ok d3 => .ok ⟨cy.elements ++ [⟨.edges, d3, position, false⟩]⟩

/-- One round of collecting descendants: the nodes whose parent is already in
`r` join it. -/
def Cy.addChildren (cy : Cy) (r : List JSVal) : List JSVal :=
  r ++ ((cy.nodes.filter (fun n => n.get "parent" ∈ r ∧ n.get "id" ∉ r)).map (fun n => n.get "id"))

/-- The ids in `r` and those of all their descendants (`fuel` rounds). -/
def Cy.closure (cy : Cy) : Nat → List JSVal → List JSVal
  | 0, r => r
  | fuel + 1, r => cy.closure fuel (cy.addChildren r)

/-- The id of a node together with the ids of all its descendants. -/
def Cy.withDescendants (cy : Cy) (id : JSVal) : List JSVal :=
  cy.closure cy.elements.length [id]

/-- The call `el.remove()` on the collection `cy.getElementById(id)`: an edge
goes alone; a node goes with its descendants and with every edge connected to
any of them.  On the empty collection nothing happens. -/
def Cy.remove (cy : Cy) (id : JSVal) : Cy :=
  match cy.getElementById id with
  | none => cy
  | some el =>
    match el.group with
    | .edges => ⟨cy.elements.filter (fun e => e.get "id" ≠ id)⟩
    | .nodes =>
      let gone := cy.withDescendants id
      ⟨cy.elements.filter (fun e =>
        e.get "id" ∉ gone ∧ (e.group = .edges → e.get "source" ∉ gone ∧ e.get "target" ∉ gone))⟩

/-- The call `cy.elements().remove()`. -/
def Cy.removeAll (_cy : Cy) : Cy := ⟨[]⟩

/-- Applies `f` to the element with the id `id`. -/
def Cy.update (cy : Cy) (id : JSVal) (f : Ele → Ele) : Cy :=
  match id with
  | .str _ => ⟨cy.elements.map (fun e => if e.get "id" = id then f e else e)⟩
  | _ => cy

/-- Writes `data.parent` of the element `id`. -/
def Cy.setParent (cy : Cy) (id : JSVal) (p : JSVal) : Cy :=
  cy.update id (fun e => { e with data := setProp e.data "parent" p })

/-- The call `el.move(\x7b parent \x7d)` on the collection `cy.getElementById(id)`,
with `parent` an id or `none` for `null`.  Nothing happens when the parent
does not exist or the element is not a node.  Otherwise the engine detaches
the node with its descendants, assigns the parent, and attaches them again in
order, dropping the parent of a node that would become its own ancestor: that
is the new parent itself when it was the moved node or one of its descendants. -/
def Cy.move (cy : Cy) (id : JSVal) (parent : Option String) : Cy :=
  match cy.getElementById id with
  | none => cy
  | some el =>
    if el.group ≠ .nodes then cy
    else
      match parent with
      | none => cy.setParent id .undefined
      | some p =>
        if !cy.hasElementWithId (.str p) then cy
        else if .str p ∈ cy.withDescendants id then
          (cy.setParent id (.str p)).setParent (.str p) .undefined
        else cy.setParent id (.str p)

/-- The call `el.data(k, v)` on the collection `cy.getElementById(id)`: with
`v` undefined it is a read; the keys `id`, `source`, `target`, `parent` cannot
be written. -/
def Cy.setData (cy : Cy) (id : JSVal) (k : String) (v : JSVal) : Cy :=
  if v = .undefined ∨ k ∈ ["id", "source", "target", "parent"] then cy
  else cy.update id (fun e => { e with data := setProp e.data k v })

end Cytoscape

/-! ## Part 5. The store actions (`src/hooks/useCytoscapeActions.js`)

Each action is the handler with an engine instance present (with
`cyRef.current` null every handler returns at once).  The clock reading
`Date.now()` and the random coordinates are arguments.  The calls that only
touch the presentation or the sidebar state (`runLayout`, `clearCentrality`,
`syncState`, `setSelected`, the form setters) are left out: they add, remove
and rewrite no element. -/

namespace Actions

open Cytoscape

/-- What a handler leaves behind: the store, and the exception that escaped
the handler, if any. -/
structure Outcome where
  cy : Cy
  thrown : Option String
  deriving DecidableEq

/-- The form state `nodeForm`; `none` is a field that is `undefined`. -/
structure NodeForm where
  label : String
  type : String
  metadata : String
  role : Option String
  aliases : Option String
  status : Option String
  avatarUrl : Option String
  location : Option String
  dob : Option String
  eventType : Option String
  eventDate : Option String
  eventLocation : Option String
  eventDescription : Option String
  deriving DecidableEq

/-- The form state `edgeForm`; `none` is a field that is `undefined`. -/
structure EdgeForm where
  source : String
  target : String
  relationship : String
  weight : JSVal
  direction : Option String
  customLabel : Option String
  description : Option String
  evidenceRef : Option String
  confidence : Option String
  startDate : Option String
  endDate : Option String
  eventDate : Option String
  location : Option String
  deriving DecidableEq

/-- The expression `x?.trim() || ''`. -/
def trimOrEmpty (x : Option String) : String :=
  match x with
  | some s => trim s
  | none => ""

/-- The expression `x || d` for a string field. -/
def strOr (x : Option String) (d : String) : String :=
  match x with
  | some s => if s = "" then d else s
  | none => d

/-- The id `'n' + Date.now()` of a new node. -/
def newNodeId (now : Nat) : String := "n" ++ natToString now

/-- The id `'e' + Date.now()` of a new edge. -/
def newEdgeId (now : Nat) : String := "e" ++ natToString now

/-- The handler `handleAddNode`, at the clock reading `now`, with the random
position `(rx, ry)`. -/
def handleAddNode (now : Nat) (rx ry : Int) (nodeForm : NodeForm) (cy : Cy) : Outcome :=
  if trim nodeForm.label = "" then ⟨cy, none⟩
  else
    let id := newNodeId now
    let data : Props :=
      [("id", .str id), ("label", .str (trim nodeForm.label)), ("nodeType", .str nodeForm.type),
        ("metadata", .str (trim nodeForm.metadata)), ("shape", objGet NODE_SHAPES nodeForm.type),
        ("color", objGet NODE_COLORS nodeForm.type), ("role", .str (trimOrEmpty nodeForm.role)),
        ("aliases", .str (trimOrEmpty nodeForm.aliases)), ("status", .str (strOr nodeForm.status "")),
        ("avatarUrl", .str (trimOrEmpty nodeForm.avatarUrl)),
        ("location", .str (trimOrEmpty nodeForm.location)), ("dob", .str (strOr nodeForm.dob "")),
        ("eventType", .str (strOr nodeForm.eventType "")),
        ("eventDate", .str (strOr nodeForm.eventDate "")),
        ("eventLocation", .str (trimOrEmpty nodeForm.eventLocation)),
        ("eventDescription", .str (trimOrEmpty nodeForm.eventDescription)), ("tags", .str "[]")]
    match cy.add "" .nodes data (.obj [("x", .num rx), ("y", .num ry)]) with
    | .error e => ⟨cy, some e⟩
    | .ok cy' => ⟨cy', none⟩

/-- The handler `handleAddEdge`, at the clock reading `now`. -/
def handleAddEdge (now : Nat) (edgeForm : EdgeForm) (cy : Cy) : Outcome :=
  if edgeForm.source = "" ∨ edgeForm.target = "" ∨ edgeForm.source = edgeForm.target then
    ⟨cy, none⟩
  else
    let id := newEdgeId now
    let displayLabel := strOr (some (trimOrEmpty edgeForm.customLabel)) edgeForm.relationship
    let data : Props :=
      [("id", .str id), ("source", .str edgeForm.source), ("target", .str edgeForm.target),
        ("label", .str displayLabel), ("relationship", .str edgeForm.relationship),
        ("weight", edgeForm.weight),
        ("color", (objGet RELATIONSHIP_COLORS edgeForm.relationship).orElse
          (objGet RELATIONSHIP_COLORS "Unknown")),
        ("direction", .str (strOr edgeForm.direction "directed")),
        ("customLabel", .str (trimOrEmpty edgeForm.customLabel)),
        ("description", .str (trimOrEmpty edgeForm.description)),
        ("evidenceRef", .str (trimOrEmpty edgeForm.evidenceRef)),
        ("confidence", .str (strOr edgeForm.confidence "Confirmed")),
        ("startDate", .str (strOr edgeForm.startDate "")),
        ("endDate", .str (strOr edgeForm.endDate "")),
        ("eventDate", .str (strOr edgeForm.eventDate "")), ("evidenceItems", .str "[]"),
        ("location", .str (trimOrEmpty edgeForm.location))]
    match cy.add "" .edges data .undefined with
    | .error e => ⟨cy, some e⟩
    | .ok cy' => ⟨cy', none⟩

/-- The function `assignToCluster(childNodeId, parentNodeId)`. -/
def assignToCluster (childNodeId parentNodeId : String) (cy : Cy) : Cy :=
  if childNodeId = parentNodeId then cy
  else
    match cy.getElementById (.str parentNodeId) with
    | none => cy
    | some parent =>
      if parent.get "nodeType" ≠ .str "Organization" then cy
      else
        match cy.getElementById (.str childNodeId) with
        | none => cy
        | some _ => cy.move (.str childNodeId) (some parentNodeId)

/-- The function `removeFromCluster(childNodeId)`. -/
def removeFromCluster (childNodeId : String) (cy : Cy) : Cy :=
  match cy.getElementById (.str childNodeId) with
  | none => cy
  | some _ => cy.move (.str childNodeId) none

/-- The function `deleteElement(id)`. -/
def deleteElement (id : String) (cy : Cy) : Cy := cy.remove (.str id)

/-- The edit state `editingNode`; `none` is a field that is `undefined`. -/
structure EditingNode where
  id : String
  label : Option String
  type : Option String
  metadata : Option String
  role : Option String
  aliases : Option String
  status : Option String
  avatarUrl : Option String
  location : Option String
  dob : Option String
  eventType : Option String
  eventDate : Option String
  eventLocation : Option String
  eventDescription : Option String
  deriving DecidableEq

/-- The edit state `editingEdge`; `none` is a field that is `undefined`. -/
structure EditingEdge where
  id : String
  relationship : Option String
  weight : JSVal
  direction : Option String
  customLabel : Option String
  description : Option String
  evidenceRef : Option String
  confidence : Option String
  startDate : Option String
  endDate : Option String
  eventDate : Option String
  location : Option String
  deriving DecidableEq

/-- A string field as a value. -/
def optVal (x : Option String) : JSVal :=
  match x with
  | some s => .str s
  | none => .undefined

/-- The property key a string field stands for in `TABLE[field]`. -/
def optKey (x : Option String) : String :=
  match x with
  | some s => s
  | none => "undefined"

/-- The function `saveEditNode()` with the edit state `editingNode`.  On an id
that names no element the writes do nothing and the read `el.data()` that
follows yields `undefined`, so `data.id` throws. -/
def saveEditNode (editingNode : EditingNode) (cy : Cy) : Outcome :=
  let id : JSVal := .str editingNode.id
  let writes : List (String × JSVal) :=
    [("label", optVal editingNode.label), ("nodeType", optVal editingNode.type),
      ("metadata", optVal editingNode.metadata),
      ("shape", objGet NODE_SHAPES (optKey editingNode.type)),
      ("color", objGet NODE_COLORS (optKey editingNode.type)),
      ("role", .str (strOr editingNode.role "")), ("aliases", .str (strOr editingNode.aliases "")),
      ("status", .str (strOr editingNode.status "")),
      ("avatarUrl", .str (strOr editingNode.avatarUrl "")),
      ("location", .str (strOr editingNode.location "")), ("dob", .str (strOr editingNode.dob "")),
      ("eventType", .str (strOr editingNode.eventType "")),
      ("eventDate", .str (strOr editingNode.eventDate "")),
      ("eventLocation", .str (strOr editingNode.eventLocation "")),
      ("eventDescription", .str (strOr editingNode.eventDescription ""))]
  let cy' := writes.foldl (fun c w => c.setData id w.1 w.2) cy
  match cy.getElementById id with
  | none => ⟨cy', some "TypeError: Cannot read properties of undefined"⟩
  | some _ => ⟨cy', none⟩

/-- The function `saveEditEdge()` with the edit state `editingEdge`. -/
def saveEditEdge (editingEdge : EditingEdge) (cy : Cy) : Outcome :=
  let id : JSVal := .str editingEdge.id
  let displayLabel : JSVal :=
    (JSVal.str (trimOrEmpty editingEdge.customLabel)).orElse (optVal editingEdge.relationship)
  let writes : List (String × JSVal) :=
    [("label", displayLabel), ("relationship", optVal editingEdge.relationship),
      ("weight", editingEdge.weight),
      ("color", (objGet RELATIONSHIP_COLORS (optKey editingEdge.relationship)).orElse
        (objGet RELATIONSHIP_COLORS "Unknown")),
      ("direction", .str (strOr editingEdge.direction "directed")),
      ("customLabel", .str (trimOrEmpty editingEdge.customLabel)),
      ("description", .str (trimOrEmpty editingEdge.description)),
      ("evidenceRef", .str (trimOrEmpty editingEdge.evidenceRef)),
      ("confidence", .str (strOr editingEdge.confidence "Confirmed")),
      ("startDate", .str (strOr editingEdge.startDate "")),
      ("endDate", .str (strOr editingEdge.endDate "")),
      ("eventDate", .str (strOr editingEdge.eventDate "")),
      ("location", .str (trimOrEmpty editingEdge.location))]
  let cy' := writes.foldl (fun c w => c.setData id w.1 w.2) cy
  match cy.getElementById id with
  | none => ⟨cy', some "TypeError: Cannot read properties of undefined"⟩
  | some _ => ⟨cy', none⟩

end Actions

/-! ## Part 6. Export and import (`src/storage.js`) -/

namespace Storage

open Cytoscape Kumu

/-- The expression `v || undefined`. -/
def orUndefined (v : JSVal) : JSVal := v.orElse .undefined

/-- The callback of `cy.nodes().map` in `exportGraphToJSON`. -/
def exportNode (n : Ele) : JSVal :=
  .obj [("data", .obj
    [("id", n.get "id"), ("label", n.get "label"), ("nodeType", n.get "nodeType"),
      ("metadata", n.get "metadata"), ("parent", orUndefined (n.get "parent")),
      ("avatarUrl", orUndefined (n.get "avatarUrl")), ("role", orUndefined (n.get "role")),
      ("aliases", orUndefined (n.get "aliases")), ("status", orUndefined (n.get "status")),
      ("location", orUndefined (n.get "location")), ("dob", orUndefined (n.get "dob")),
      ("eventType", orUndefined (n.get "eventType")),
      ("eventDate", orUndefined (n.get "eventDate")),
      ("eventLocation", orUndefined (n.get "eventLocation")),
      ("eventDescription", orUndefined (n.get "eventDescription")),
      ("tags", orUndefined (n.get "tags"))]),
    ("position", n.position)]

/-- The callback of `cy.edges().map` in `exportGraphToJSON`. -/
def exportEdge (e : Ele) : JSVal :=
  .obj [("data", .obj
    [("id", e.get "id"), ("source", e.get "source"), ("target", e.get "target"),
      ("relationship", e.get "relationship"), ("weight", e.get "weight"),
      ("direction", orUndefined (e.get "direction")),
      ("confidence", orUndefined (e.get "confidence")),
      ("description", orUndefined (e.get "description")),
      ("evidenceRef", orUndefined (e.get "evidenceRef")),
      ("customLabel", orUndefined (e.get "customLabel")),
      ("startDate", orUndefined (e.get "startDate")), ("endDate", orUndefined (e.get "endDate")),
      ("eventDate", orUndefined (e.get "eventDate")),
      ("location", orUndefined (e.get "location"))])]

/-- The object `data` that `exportGraphToJSON(cy)` builds and writes out with
`JSON.stringify`. -/
def exportGraphToJSON (cy : Cy) : JSVal :=
  .obj [("nodes", .arr (cy.nodes.map exportNode)), ("edges", .arr (cy.edges.map exportEdge))]

mutual
/-- What `JSON.parse(JSON.stringify(v))` gives back for a value that has a
JSON text: members without a JSON form (`undefined`, functions) are left out
of objects and become `null` in arrays. -/
def jsonCopy : JSVal → JSVal
  | .undefined => .undefined
  | .null => .null
  | .bool b => .bool b
  | .num n => .num n
  | .str s => .str s
  | .arr xs => .arr (jsonCopyItems xs)
  | .obj ps => .obj (jsonCopyProps ps)
  | .builtin k => if k = "__proto__" then .obj [] else .undefined
/-- The items of an array after the round trip through JSON text. -/
def jsonCopyItems : List JSVal → List JSVal
  | [] => []
  | x :: xs =>
    (match jsonCopy x with
      | .undefined => JSVal.null
      | v => v) :: jsonCopyItems xs
/-- The members of an object after the round trip through JSON text. -/
def jsonCopyProps : List (String × JSVal) → List (String × JSVal)
  | [] => []
  | (k, x) :: ps =>
    match jsonCopy x with
    | .undefined => jsonCopyProps ps
    | v => (k, v) :: jsonCopyProps ps
end

/-- The content of the imported file, as `JSON.parse` sees it. -/
inductive FileContent where
  | unparsable
  | parsed (raw : JSVal)

/-- What the `onload` handler of `importGraphFromJSON` leaves behind: the
store and the alerts shown. -/
structure ImportResult where
  cy : Cy
  alerts : List String
  deriving DecidableEq

/-- The own enumerable properties an object spread `...v` copies. -/
def spread : JSVal → Props
  | .obj ps => ps
  | .arr xs => xs.enum.map (fun p => (natToString p.1, p.2))
  | .str s => s.data.enum.map (fun p => (natToString p.1, .str ⟨[p.2]⟩))
  | _ => []

/-- The array spread `[...v]`: it throws unless `v` is iterable. -/
def spreadArray : JSVal → Except String (List JSVal)
  | .arr xs => .ok xs
  | .str s => .ok (s.data.map (fun c => .str ⟨[c]⟩))
  | _ => .error "TypeError: value is not iterable"

/-- The read `a.data.parent` of the sort comparator, as the flag
`a.data.parent ? 1 : 0`. -/
def hasParent (a : JSVal) : Except String Bool :=
  match getProp a "data" with
  | .error e => .error e
  | .ok d =>
    match getProp d "parent" with
    | .error e => .error e
    | .ok p => .ok p.truthy

/-- The call `[...nodes].sort((a, b) => aHas - bHas)`: a stable sort on the
flag, so the entries without a parent come first, each group in its old
order.  With fewer than two entries the comparator is not called; otherwise it
reads the flag of every entry and an exception in it ends the sort. -/
def sortNodes (nodes : List JSVal) : Except String (List JSVal) :=
  if nodes.length < 2 then .ok nodes
  else
    match mapE hasParent nodes with
    | .error e => .error e
    | .ok flags =>
      let tagged := nodes.zip flags
      .ok ((tagged.filter (fun p => !p.2)).map (fun p => p.1)
        ++ (tagged.filter (fun p => p.2)).map (fun p => p.1))

/-- The table read `TABLE[v] || fallback`: the key is the string of `v`. -/
def tableOr (table : Props) (v : JSVal) (fallback : JSVal) : Except String JSVal :=
  match toStr v with
  | .error e => .error e
  | .ok k => .ok ((objGet table k).orElse fallback)

/-- The callback of `sortedNodes.forEach`: adds the node `n`, the `i`-th of
the sorted list.  `randomPosition i` is the random position made for it and
`uuid i` the id the engine generates when it has none. -/
def importNode (randomPosition : Nat → JSVal) (uuid : Nat → String) (cy : Cy)
    (entry : Nat × JSVal) : Except String Cy :=
  let n := entry.2
  match getProp n "data" with
  | .error e => .error e
  | .ok d =>
    match getProp d "nodeType" with
    | .error e => .error e
    | .ok nodeType =>
      match tableOr NODE_SHAPES nodeType (.str "ellipse"),
        tableOr NODE_COLORS nodeType (.str "#6b7280"), getProp n "position" with
      | .error e, _, _ => .error e
      | _, .error e, _ => .error e
      | _, _, .error e => .error e
      | .ok shape, .ok color, .ok position =>
        cy.add (uuid entry.1) .nodes (setProp (setProp (spread d) "shape" shape) "color" color)
          (position.orElse (randomPosition entry.1))

/-- The callback of `graphData.edges.forEach`: adds the edge `edge`, the
`i`-th element added. -/
def importEdge (uuid : Nat → String) (cy : Cy) (entry : Nat × JSVal) : Except String Cy :=
  let edge := entry.2
  match getProp edge "data" with
  | .error e => .error e
  | .ok d =>
    match getProp d "label", getProp d "relationship" with
    | .error e, _ => .error e
    | _, .error e => .error e
    | .ok label, .ok relationship =>
      match tableOr RELATIONSHIP_COLORS relationship (objGet RELATIONSHIP_COLORS "Unknown") with
      | .error e => .error e
      | .ok color =>
        cy.add (uuid entry.1) .edges
          (setProp (setProp (spread d) "label" (label.orElse relationship)) "color" color)
          .undefined

/-- Runs `f` over the entries, threading the store; at an exception it stops
and returns the store reached so far together with the exception. -/
def forEachAdd {α : Type} (f : Cy → α → Except String Cy) : Cy → List α → Cy × Option String
  | cy, [] => (cy, none)
  | cy, x :: xs =>
    match f cy x with
    | .error e => (cy, some e)
    | .ok cy' => forEachAdd f cy' xs

/-- The format detection at the head of the handler: the graph data to load,
`none` for an unrecognised shape, or the exception a read throws. -/
def detectFormat (raw : JSVal) : Except String (Option JSVal) :=
  match getProp raw "elements" with
  | .error e => .error e
  | .ok els =>
    match (if els.isArray then getProp raw "connections" else .ok .undefined) with
    | .error e => .error e
    | .ok cs =>
      if els.isArray ∧ cs.isArray then
        match convertKumuToNative raw with
        | .error e => .error e
        | .ok g => .ok (some g)
      else
        match getProp raw "nodes" with
        | .error e => .error e
        | .ok ns => .ok (if ns.truthy then some raw else none)

/-- The part of the handler after `cy.elements().remove()`: nodes, then
edges.  It returns the store reached and the exception thrown, if any. -/
def repopulate (randomPosition : Nat → JSVal) (uuid : Nat → String) (graphData : JSVal)
    (cy : Cy) : Cy × Option String :=
  match getProp graphData "nodes" with
  | .error e => (cy, some e)
  | .ok ns =>
    match spreadArray (ns.orElse (.arr [])) with
    | .error e => (cy, some e)
    | .ok nodes =>
      match sortNodes nodes with
      | .error e => (cy, some e)
      | .ok sortedNodes =>
        match forEachAdd (importNode randomPosition uuid) cy sortedNodes.enum with
        | (cy1, some e) => (cy1, some e)
        | (cy1, none) =>
          match getProp graphData "edges" with
          | .error e => (cy1, some e)
          | .ok es =>
            if !es.truthy then (cy1, none)
            else
              match arrayReceiver "forEach" es with
              | .error e => (cy1, some e)
              | .ok edges =>
                forEachAdd (importEdge uuid) cy1 (edges.enumFrom sortedNodes.length)

/-- The `reader.onload` handler of `importGraphFromJSON`, with an engine
instance present.  The callbacks that follow a complete import
(`setSearchQuery`, `clearCentralityCallback`, `syncCallback`,
`runLayoutCallback`) belong to the caller and are left out. -/
def importGraphFromJSON (randomPosition : Nat → JSVal) (uuid : Nat → String)
    (content : FileContent) (cy : Cy) : ImportResult :=
  match content with
  | .unparsable => ⟨cy, ["Invalid JSON file."]⟩
  | .parsed raw =>
    match detectFormat raw with
    | .error _ => ⟨cy, ["Invalid JSON file."]⟩
    | .ok none => ⟨cy, ["Unrecognized JSON format. Expected Link Analysis or Kumu format."]⟩
    | .ok (some graphData) =>
      match repopulate randomPosition uuid graphData cy.removeAll with
      | (cy', some _) => ⟨cy', ["Invalid JSON file."]⟩
      | (cy', none) => ⟨cy', []⟩

end Storage

/-! ## Part 7. Reading documents and stores; the inputs used below -/

/-- The member `v.k`, `undefined` where the read throws. -/
def field (v : JSVal) (k : String) : JSVal :=
  match getProp v k with
  | .ok x => x
  | .error _ => .undefined

/-- The entries of an array; none for any other value. -/
def items (v : JSVal) : List JSVal :=
  match v with
  | .arr xs => xs
  | _ => []

/-- The nodes of a native graph document. -/
def graphNodes (g : JSVal) : List JSVal := items (field g "nodes")

/-- The edges of a native graph document. -/
def graphEdges (g : JSVal) : List JSVal := items (field g "edges")

/-- The member `entry.data.k` of a node or edge of a native document. -/
def dataField (entry : JSVal) (k : String) : JSVal := field (field entry "data") k

/-- No edge of the native document `g` dangles: its source and its target are
ids of nodes of `g`. -/
def NoDanglingEdge (g : JSVal) : Prop :=
  ∀ e ∈ graphEdges g,
    (∃ n ∈ graphNodes g, dataField n "id" = dataField e "source") ∧
    (∃ n ∈ graphNodes g, dataField n "id" = dataField e "target")

instance (g : JSVal) : Decidable (NoDanglingEdge g) := by
  unfold NoDanglingEdge; infer_instance

/-- The foreign document of the dangling-reference scenario: one element `a`
and one connection `c1` from `a` to `missing`. -/
def danglingDoc : JSVal :=
  .obj [("elements", .arr [.obj [("_id", .str "a"),
      ("attributes", .obj [("label", .str "Bob"), ("element type", .str "person")])]]),
    ("connections", .arr [.obj [("_id", .str "c1"), ("from", .str "a"), ("to", .str "missing")]])]

/-- The native node the converter makes of the element `a` of `danglingDoc`. -/
def bobNode : JSVal :=
  .obj [("data", .obj
    [("id", .str "a"), ("label", .str "Bob"), ("nodeType", .str "Person"), ("metadata", .str ""),
      ("role", .str ""), ("aliases", .str ""), ("status", .str ""), ("avatarUrl", .str ""),
      ("location", .str ""), ("dob", .str ""), ("eventType", .str ""), ("eventDate", .str ""),
      ("eventLocation", .str ""), ("eventDescription", .str ""), ("tags", .str "[]")])]

/-- The native edge the converter makes of the connection `c1` of `danglingDoc`. -/
def danglingEdge : JSVal :=
  .obj [("data", .obj
    [("id", .str "c1"), ("source", .str "a"), ("target", .str "missing"),
      ("label", .str "Unknown"), ("relationship", .str "Unknown"), ("weight", .num 2),
      ("direction", .str "directed"), ("customLabel", .str ""), ("description", .str ""),
      ("evidenceRef", .str ""), ("confidence", .str "Confirmed"), ("startDate", .str ""),
      ("endDate", .str ""), ("eventDate", .str ""), ("evidenceItems", .str "[]"),
      ("location", .str "")])]

/-- The connections of a foreign document. -/
def docConnections (d : JSVal) : List JSVal := items (field d "connections")

/-- The test of the converter on a connection: both `from` and `to` are truthy. -/
def hasEndpoints (conn : JSVal) : Bool := (field conn "from").truthy && (field conn "to").truthy

/-- The native document the converter makes of `danglingDoc`. -/
def danglingNative : JSVal := .obj [("nodes", .arr [bobNode]), ("edges", .arr [danglingEdge])]

open Cytoscape Actions Storage in
/-- A node form with the given label and type and every other field empty. -/
def nodeFormOf (label type : String) : NodeForm :=
  ⟨label, type, "", some "", some "", some "", some "", some "", some "", some "", some "",
    some "", some ""⟩

open Cytoscape Actions Storage in
/-- An edge form from `source` to `target` with the given relationship and
custom label, the other fields as in `emptyEdge`. -/
def edgeFormOf (source target relationship customLabel : String) : EdgeForm :=
  ⟨source, target, relationship, .num 2, some "directed", some customLabel, some "", some "",
    some "Confirmed", some "", some "", some "", some ""⟩

open Cytoscape Actions Storage in
/-- The store after two nodes were added to the empty store: the organizations
`n1` (at clock reading 1) and `n2` (at clock reading 2). -/
def twoOrgs : Cy :=
  (handleAddNode 2 30 40 (nodeFormOf "Globex" "Organization")
    (handleAddNode 1 10 20 (nodeFormOf "Acme" "Organization") ⟨[]⟩).cy).cy

open Cytoscape Actions Storage in
/-- The store `twoOrgs` after the edge `e3` from `n1` to `n2` was added, a
Financial relationship with the custom label `Wire`. -/
def wiredOrgs : Cy := (handleAddEdge 3 (edgeFormOf "n1" "n2" "Financial" "Wire") twoOrgs).cy

/-- The label, custom label and evidence items of the element `id`. -/
def edgeLabels (cy : Cytoscape.Cy) (id : String) : Option (JSVal × JSVal × JSVal) :=
  (cy.getElementById (.str id)).map
    (fun e => (e.get "label", e.get "customLabel", e.get "evidenceItems"))

/-- The parsed document `\x7b"nodes": [\x7b\x7d]\x7d`: a `nodes` key with a malformed entry. -/
def malformedNodesDoc : JSVal := .obj [("nodes", .arr [.obj []])]

/-- The document has the Kumu shape: `elements` and `connections` are arrays. -/
def kumuShaped (raw : JSVal) : Bool :=
  (field raw "elements").isArray && (field raw "connections").isArray

/-- The document has a truthy `nodes` key. -/
def hasNodesKey (raw : JSVal) : Bool := (field raw "nodes").truthy

/-- A supply of positions for the nodes an import finds without one (the
origin for each), standing for the random positions of the handler. -/
def originPositions : Nat → JSVal := fun _ => .obj [("x", .num 0), ("y", .num 0)]

/-- A supply of generated ids for the elements an import finds without one. -/
def numberedIds : Nat → String := fun i => "generated-" ++ natToString i

/-- The `parent` of the element `id`, `none` when there is no such element. -/
def parentOf (cy : Cytoscape.Cy) (id : String) : Option JSVal :=
  (cy.getElementById (.str id)).map (fun e => e.get "parent")

/-- The `nodeType` of the element `id`, `none` when there is no such element. -/
def nodeTypeOf (cy : Cytoscape.Cy) (id : String) : Option JSVal :=
  (cy.getElementById (.str id)).map (fun e => e.get "nodeType")

open Cytoscape Actions in
/-- The store `twoOrgs` after `assignToCluster("n2", "n1")`: `n2` lies in `n1`. -/
def nestedOrgs : Cy := assignToCluster "n2" "n1" twoOrgs

open Cytoscape Actions in
/-- The store after two nodes were added to the empty store: the organization
`n1` and the person `n2`. -/
def orgAndPerson : Cy :=
  (handleAddNode 2 30 40 (nodeFormOf "Bob" "Person")
    (handleAddNode 1 10 20 (nodeFormOf "Acme" "Organization") ⟨[]⟩).cy).cy

open Cytoscape Actions in
/-- The store `orgAndPerson` after `assignToCluster("n2", "n1")`: Bob lies in Acme. -/
def bobInAcme : Cy := assignToCluster "n2" "n1" orgAndPerson

open Actions in
/-- The edit state for the node `n1` (Acme) as `startEditNode` fills it, with
the type changed from Organization to Person. -/
def acmeAsPerson : EditingNode :=
  ⟨"n1", some "Acme", some "Person", some "", some "", some "", some "", some "", some "",
    some "", some "", some "", some "", some ""⟩

namespace Actions

open Cytoscape

/-- One creation request of a session: a call of `handleAddNode` or of
`handleAddEdge`, with the clock reading at the call. -/
inductive Creation where
  | node (now : Nat) (rx ry : Int) (form : NodeForm)
  | edge (now : Nat) (form : EdgeForm)

/-- The clock reading of a creation request. -/
def Creation.clock : Creation → Nat
  | .node now _ _ _ => now
  | .edge now _ => now

/-- The id the handler generates for a creation request. -/
def Creation.newId : Creation → String
  | .node now _ _ _ => newNodeId now
  | .edge now _ => newEdgeId now

/-- The store after the handler served a creation request. -/
def Creation.run (c : Creation) (cy : Cy) : Cy :=
  match c with
  | .node now rx ry form => (handleAddNode now rx ry form cy).cy
  | .edge now form => (handleAddEdge now form cy).cy

/-- The store after a sequence of creation requests, served in order. -/
def runCreations (cs : List Creation) (cy : Cy) : Cy := cs.foldl (fun s c => c.run s) cy

end Actions

/-- The number a list of decimal digits denotes. -/
def digitsValue (cs : List Char) (start : Nat) : Nat :=
  cs.foldl (fun a c => 10 * a + (c.toNat - 48)) start

/-! ### Well-formed foreign documents -/

/-- A primitive value: `String(v)` needs no method of `v`. -/
def isPrimitive : JSVal → Bool
  | .undefined => true
  | .null => true
  | .bool _ => true
  | .num _ => true
  | .str _ => true
  | _ => false

/-- A string. -/
def isString : JSVal → Bool
  | .str _ => true
  | _ => false

/-- The value is falsy (absent, empty, zero) or a string. -/
def stringIfPresent (v : JSVal) : Bool := !v.truthy || isString v

/-- The value is falsy or an array. -/
def arrayIfPresent (v : JSVal) : Bool := !v.truthy || v.isArray

/-- The attribute `getAttr(attrs, key)` finds, `undefined` where it throws. -/
def attrOf (attrs : JSVal) (key : String) : JSVal :=
  match Kumu.getAttr attrs key with
  | .ok v => v
  | .error _ => .undefined

/-- The expression `entry.attributes || {}`. -/
def attrsOf (entry : JSVal) : JSVal := (field entry "attributes").orElse (.obj [])

/-- An element the converter can handle: not `null`, with a primitive `_id`, an
`element type` and a `description` that are strings when present, and
primitive secondary attributes. -/
def wellFormedElement (el : JSVal) : Bool :=
  !el.nullish && isPrimitive (field el "_id") &&
    stringIfPresent (attrOf (attrsOf el) "element type") &&
    stringIfPresent (field (attrsOf el) "description") &&
    Kumu.META_ATTRS.all (fun m => isPrimitive (field (attrsOf el) m.1))

/-- A connection the converter can handle: not `null`, with a `connection type`
and a `direction` that are strings when present. -/
def wellFormedConnection (conn : JSVal) : Bool :=
  !conn.nullish && stringIfPresent (attrOf (attrsOf conn) "connection type") &&
    stringIfPresent (field conn "direction")

/-- An entry of the first map the converter can handle: not `null`, with a
primitive `element` reference. -/
def wellFormedMapItem (mapEl : JSVal) : Bool :=
  !mapEl.nullish && isPrimitive (field mapEl "element")

/-- A `maps` member the converter can handle: falsy, or an array that is empty
or starts with a non-null entry whose `elements` is falsy or an array of
well-formed entries. -/
def wellFormedMaps (maps : JSVal) : Bool :=
  !maps.truthy ||
    match maps with
    | .arr [] => true
    | .arr (first :: _) =>
      !first.nullish &&
        (!(field first "elements").truthy ||
          match field first "elements" with
          | .arr ms => ms.all wellFormedMapItem
          | _ => false)
    | _ => false

/-- A foreign document the converter can handle. -/
def wellFormedDocument (d : JSVal) : Bool :=
  !d.nullish && isPrimitive (field d "version") && wellFormedMaps (field d "maps") &&
    arrayIfPresent (field d "elements") && (items (field d "elements")).all wellFormedElement &&
    arrayIfPresent (field d "connections") &&
    (items (field d "connections")).all wellFormedConnection

/-- A document with a `null` entry among its elements. -/
def nullElementDoc : JSVal := .obj [("elements", .arr [.null]), ("connections", .arr [])]

/-- A document whose `elements` member is an object, not an array. -/
def objectElementsDoc : JSVal := .obj [("elements", .obj [("a", .num 1)])]

/-- A document with an element whose `element type` is a number. -/
def numericTypeDoc : JSVal :=
  .obj [("elements", .arr [.obj [("_id", .str "a"),
    ("attributes", .obj [("element type", .num 5)])]])]

/-! ### Inputs and readings for the mapping tables, the tags and the import order -/

/-- A foreign document with one element of the given `element type` and one
connection from it to a second element, of the given `connection type` and label. -/
def typedDoc (elementType connectionType label : String) : JSVal :=
  .obj [("elements", .arr [.obj [("_id", .str "a"),
      ("attributes", .obj [("label", .str "Bob"), ("element type", .str elementType)])],
      .obj [("_id", .str "b"), ("attributes", .obj [("label", .str "Eve")])]]),
    ("connections", .arr [.obj [("_id", .str "c1"), ("from", .str "a"), ("to", .str "b"),
      ("attributes", .obj [("connection type", .str connectionType), ("label", .str label)])]])]

/-- The value of the member `k` of the data of every node of a native document. -/
def nodeFields (g : JSVal) (k : String) : List JSVal := (graphNodes g).map (fun n => dataField n k)

/-- The value of the member `k` of the data of every edge of a native document. -/
def edgeFields (g : JSVal) (k : String) : List JSVal := (graphEdges g).map (fun e => dataField e k)

/-- The members of a native document, `undefined` members where the converter throws. -/
def converted (d : JSVal) : JSVal :=
  match Kumu.convertKumuToNative d with
  | .ok g => g
  | .error _ => .undefined

/-- The array whose JSON text `buildTags(kumuTags)` returns: the array itself,
the trimmed non-empty pieces of a non-blank string, and no entry otherwise. -/
def tagEntries (kumuTags : JSVal) : List JSVal :=
  match kumuTags with
  | .arr xs => xs
  | .str s =>
    if trim s ≠ "" then (((splitComma s).map trim).filter (fun t => t ≠ "")).map .str else []
  | _ => []

/-- The entries are strings, none of them twice: an ordered set of strings. -/
def IsStringSet (entries : List JSVal) : Prop :=
  (∀ x ∈ entries, isString x = true) ∧ entries.Nodup

instance (entries : List JSVal) : Decidable (IsStringSet entries) := by
  unfold IsStringSet; infer_instance

/-- The display label rule on an element: `label` is `customLabel` when that is
truthy (non-empty), `relationship` otherwise. -/
def LabelRule (e : Cytoscape.Ele) : Prop :=
  e.get "label" = (e.get "customLabel").orElse (e.get "relationship")

instance (e : Cytoscape.Ele) : Decidable (LabelRule e) := by
  unfold LabelRule; infer_instance

open Cytoscape Actions in
/-- The store after three organizations `n1`, `n2`, `n3` were added, `n1` was
put into `n2` and `n2` into `n3`: nested containment. -/
def nestedThree : Cy :=
  assignToCluster "n2" "n3" (assignToCluster "n1" "n2"
    (handleAddNode 3 50 60 (nodeFormOf "Initech" "Organization") twoOrgs).cy)

/-- The native document that the export of `nestedThree` writes. -/
def nestedThreeDoc : JSVal := Storage.jsonCopy (Storage.exportGraphToJSON nestedThree)

/-- In the list of native nodes every node with a truthy parent comes after a
node whose id is that parent. -/
def parentsFirst : List JSVal → List JSVal → Bool
  | _, [] => true
  | seen, n :: rest =>
    (!(dataField n "parent").truthy || seen.contains (dataField n "parent")) &&
      parentsFirst (dataField n "id" :: seen) rest

/-- The nodes of a native document have distinct ids and every truthy parent is
the id of a node of the document. -/
def closedContainment (nodes : List JSVal) : Prop :=
  (nodes.map (fun n => dataField n "id")).Nodup ∧
    ∀ n ∈ nodes, (dataField n "parent").truthy = true →
      dataField n "parent" ∈ nodes.map (fun m => dataField m "id")

instance (nodes : List JSVal) : Decidable (closedContainment nodes) := by
  unfold closedContainment; infer_instance

/-- The list `NODE_TYPES` of `src/constants.js`. -/
def NODE_TYPES : List String := ["Person", "Organization", "Phone", "Event"]

/-- The value is one of the native node types. -/
def isNodeType (v : JSVal) : Bool := NODE_TYPES.any (fun t => v = .str t)

/-- The trimmed, non-empty comma-separated pieces of a string, in source order. -/
def tagPieces (s : String) : List String :=
  ((splitComma s).map trim).filter (fun t => t ≠ "")

/-- Between `e` and `e'` nothing differs but, possibly, the `parent` entry of
the data. -/
def OnlyParentChanged (e e' : Cytoscape.Ele) : Prop :=
  e'.group = e.group ∧ e'.position = e.position ∧ e'.hidden = e.hidden ∧
    ∀ k, k ≠ "parent" → e'.get k = e.get k

namespace Cytoscape

/-- The write `el.data(k, v)` on one element: with `v` undefined it is a read;
the keys `id`, `source`, `target`, `parent` cannot be written. -/
def Ele.setData (e : Ele) (k : String) (v : JSVal) : Ele :=
  if v = .undefined ∨ k ∈ ["id", "source", "target", "parent"] then e
  else { e with data := Kumu.setProp e.data k v }

end Cytoscape

/-- The value a key holds after the call `el.data(k, v)` when it held `prior`:
`v`, or `prior` when `v` is undefined (the call is then a read). -/
def writtenOr (v prior : JSVal) : JSVal := if v = .undefined then prior else v

/-- The value the key `k` holds after the writes `el.data(k', v')` of `writes`,
in order, on an element where it held `v`. -/
def afterWrites : List (String × JSVal) → String → JSVal → JSVal
  | [], _, v => v
  | w :: ws, k, v =>
    afterWrites ws k
      (if w.1 = k ∧ ¬ (w.2 = .undefined ∨ w.1 ∈ ["id", "source", "target", "parent"]) then w.2
        else v)

/-- The keys that `saveEditNode` writes. -/
def nodeEditKeys : List String :=
  ["label", "nodeType", "metadata", "shape", "color", "role", "aliases", "status", "avatarUrl",
    "location", "dob", "eventType", "eventDate", "eventLocation", "eventDescription"]

/-- The keys that `saveEditEdge` writes. -/
def edgeEditKeys : List String :=
  ["label", "relationship", "weight", "color", "direction", "customLabel", "description",
    "evidenceRef", "confidence", "startDate", "endDate", "eventDate", "location"]

open Cytoscape Actions in
/-- The store after the person Bob (`n1`) was added with the role `Boss`. -/
def bossStore : Cy :=
  (handleAddNode 1 10 20 { nodeFormOf "Bob" "Person" with role := some "Boss" } ⟨[]⟩).cy

open Actions in
/-- An edit state for the node `n1` that supplies the label only. -/
def labelOnly : EditingNode :=
  ⟨"n1", some "Robert", none, none, none, none, none, none, none, none, none, none, none, none⟩

open Actions in
/-- An edit state for the edge `e3` that supplies the relationship only. -/
def relationshipOnly : EditingEdge :=
  ⟨"e3", some "Family", .undefined, none, none, none, none, none, none, none, none, none⟩

open Kumu in
/-- The metadata `convertKumuToNative` computes for an element whose attributes
are `attrs` (kumu-import.js 171-173): the original type found by `getAttr`, the
node type, then `buildMetadata`. -/
def metadataOf (attrs : JSVal) : Except String String :=
  match getAttr attrs "element type" with
  | .error e => .error e
  | .ok t =>
    let originalType := t.orElse (.str "")
    match mapNodeType originalType with
    | .error e => .error e
    | .ok nodeType => buildMetadata attrs nodeType originalType

/-- The characters of a string value; empty for every other value. -/
def textOf : JSVal → String
  | .str s => s
  | _ => ""

/-- The text `String(v)` of a value, empty where the conversion throws. -/
def primitiveText (v : JSVal) : String :=
  match toStr v with
  | .ok s => s
  | .error _ => ""

/-- Following the specification: the tag for a foreign type, `[Location]` when
its normal form is `location`, the bracketed trimmed type when it is non-blank
and its normal form is no key of the type table. -/
def specTypeTag (type : String) : List String :=
  if trim (toLowerCase type) = "location" then ["[Location]"]
  else if trim type ≠ "" ∧ Kumu.KUMU_TYPE_MAP.lookup (trim (toLowerCase type)) = none then
    ["[" ++ trim type ++ "]"]
  else []

/-- Following the specification: the trimmed description when it is non-blank. -/
def specDescription (description : String) : List String :=
  if trim description ≠ "" then [trim description] else []

/-- Following the specification: the line `Label: value` for an attribute that
is present (truthy) and non-blank. -/
def specAttributeLine (label : String) (value : JSVal) : List String :=
  if value.truthy = true ∧ trim (primitiveText value) ≠ "" then
    [label ++ ": " ++ trim (primitiveText value)]
  else []

/-- Following the specification: the metadata string for the foreign type
`type`, the description `description` and the secondary attributes read by
`valueAt`: type tag, description, then the attribute lines in the order of
`META_ATTRS`, joined by newlines. -/
def metadataSpec (type description : JSVal) (valueAt : String → JSVal) : String :=
  "\n".intercalate
    (specTypeTag (textOf type) ++ specDescription (textOf description) ++
      (Kumu.META_ATTRS.map (fun m => specAttributeLine m.2 (valueAt m.1))).flatten)

/-- Attributes with the type under two keys that differ in case only. -/
def mixedCaseType : Props :=
  [("Element Type", .str "location"), ("ELEMENT TYPE", .str "person")]

/-- The foreign document with one element `a` whose attributes are `attrs`. -/
def oneElementDoc (attrs : Props) : JSVal :=
  .obj [("elements", .arr [.obj [("_id", .str "a"), ("attributes", .obj attrs)]]),
    ("connections", .arr [])]

/-- Attributes with the unknown type ` Weapon `, a description, the size 0 and
the ideology 5. -/
def weaponAttrs : Props :=
  [("element type", .str " Weapon "), ("description", .str " d "), ("size", .num 0),
    ("ideology", .num 5)]

/-- The `position` member of every node of a native document. -/
def nodePositions (g : JSVal) : List JSVal := (graphNodes g).map (fun n => field n "position")

/-- The position object `\x7b x, y \x7d` built from an item of a map. -/
def positionOf (mapEl : JSVal) : JSVal :=
  .obj [("x", field (field mapEl "position") "x"), ("y", field (field mapEl "position") "y")]

/-- The item of a map passes the guard of `buildPositionMap`: a truthy
`element`, a truthy `position`, and `x` and `y` that are neither `null` nor
`undefined`. -/
def hasPosition (mapEl : JSVal) : Bool :=
  (field mapEl "element").truthy && (field mapEl "position").truthy &&
    !(field (field mapEl "position") "x").nullish && !(field (field mapEl "position") "y").nullish

/-- The item of a map passes the guard and the text of its `element` is `key`. -/
def carriesPosition (key : String) (mapEl : JSVal) : Bool :=
  hasPosition mapEl && primitiveText (field mapEl "element") == key

/-- The position of the last item of `mapItems` that carries one for `key`;
`undefined` when there is none. -/
def lastPositionFor (mapItems : List JSVal) (key : String) : JSVal :=
  match mapItems.reverse.find? (carriesPosition key) with
  | some mapEl => positionOf mapEl
  | none => .undefined

/-- A foreign document with the elements `elements`, no connections, and one
map with the items `mapItems`. -/
def mappedDoc (elements mapItems : List JSVal) : JSVal :=
  .obj [("elements", .arr elements), ("connections", .arr []),
    ("maps", .arr [.obj [("elements", .arr mapItems)]])]

/-- An item of a map: the element reference and the coordinates. -/
def mapItem (element : JSVal) (x y : Int) : JSVal :=
  .obj [("element", element), ("position", .obj [("x", .num x), ("y", .num y)])]

/-- The element `a` with two items in the first map, at (1, 2) and at (3, 4). -/
def twoPositionsDoc : JSVal :=
  mappedDoc [.obj [("_id", .str "a")]] [mapItem (.str "a") 1 2, mapItem (.str "a") 3 4]

/-- The element with the id 0 and an item for it at (1, 2) in the first map. -/
def zeroIdDoc : JSVal := mappedDoc [.obj [("_id", .num 0)]] [mapItem (.num 0) 1 2]

/-- The elements `a` and `b`; the first map places `a` at (0, 5), a second map
places `b`. -/
def secondMapDoc : JSVal :=
  .obj [("elements", .arr [.obj [("_id", .str "a")], .obj [("_id", .str "b")]]),
    ("connections", .arr []),
    ("maps", .arr [.obj [("elements", .arr [mapItem (.str "a") 0 5])],
      .obj [("elements", .arr [mapItem (.str "b") 7 8])]])]

/-! ### Search (`handleSearch`, `src/hooks/useCytoscapeActions.js`) -/

/-- The character list `s` starts with `q`. -/
def startsWithChars : List Char → List Char → Bool
  | _, [] => true
  | [], _ :: _ => false
  | c :: s, d :: q => c == d && startsWithChars s q

/-- The character list `q` occurs in `s`. -/
def includesChars : List Char → List Char → Bool
  | [], q => startsWithChars [] q
  | c :: s, q => startsWithChars (c :: s) q || includesChars s q

/-- The method `s.includes(q)`. -/
def includes (s q : String) : Bool := includesChars s.data q.data

namespace Cytoscape

/-- The call `ele.show()` on the collection `cy.getElementById(id)`. -/
def Cy.show (cy : Cy) (id : JSVal) : Cy := cy.update id (fun e => { e with hidden := false })

/-- The call `ele.hide()` on the collection `cy.getElementById(id)`. -/
def Cy.hide (cy : Cy) (id : JSVal) : Cy := cy.update id (fun e => { e with hidden := true })

/-- The call `cy.elements().show()`. -/
def Cy.showAll (cy : Cy) : Cy := ⟨cy.elements.map (fun e => { e with hidden := false })⟩

/-- The call `node.connectedEdges().hide()` for the node `id`: every edge that
starts or ends at it is hidden. -/
def Cy.hideConnectedEdges (cy : Cy) (id : JSVal) : Cy :=
  ⟨cy.elements.map (fun e =>
    if e.group = .edges ∧ (e.get "source" = id ∨ e.get "target" = id) then
      { e with hidden := true }
    else e)⟩

/-- The element `id`, its parent, the parent of that, and so on (`fuel`
levels) are all displayed, none of them hidden by `hide()`. -/
def Cy.displayedWithAncestors (cy : Cy) : Nat → JSVal → Bool
  | 0, _ => true
  | fuel + 1, id =>
    match cy.getElementById id with
    | none => true
    | some e => !e.hidden && cy.displayedWithAncestors fuel (e.get "parent")

/-- The call `ele.visible()` on the collection `cy.getElementById(id)`, falsy
on the empty collection.  With the default visibility and opacity and a size
other than zero, the engine calls a node visible when it and all of its
ancestors are displayed, and an edge visible when it is displayed and both
endpoints with all of their ancestors are. -/
def Cy.visible (cy : Cy) (id : JSVal) : Bool :=
  match cy.getElementById id with
  | none => false
  | some e =>
    match e.group with
    | .nodes => cy.displayedWithAncestors (cy.elements.length + 1) id
    | .edges =>
      !e.hidden && cy.displayedWithAncestors (cy.elements.length + 1) (e.get "source") &&
        cy.displayedWithAncestors (cy.elements.length + 1) (e.get "target")

end Cytoscape

namespace Actions

open Cytoscape

/-- The callback of `cy.nodes().forEach` in `handleSearch`, for the lower-cased
query `q`. -/
def searchNode (q : String) (cy : Cy) (node : Ele) : Except String Cy :=
  match stringReceiver "toLowerCase" ((node.get "label").orElse (.str "")) with
  | .error e => .error e
  | .ok label =>
    match stringReceiver "toLowerCase" ((node.get "nodeType").orElse (.str "")) with
    | .error e => .error e
    | .ok nodeType =>
      if includes (toLowerCase label) q || includes (toLowerCase nodeType) q then
        .ok (cy.show (node.get "id"))
      else .ok ((cy.hide (node.get "id")).hideConnectedEdges (node.get "id"))

/-- The loop `cy.nodes().forEach` of `handleSearch` over the nodes `nodes`: it
stops at the first exception, with the store as it is then. -/
def searchNodes (q : String) : Cy → List Ele → Outcome
  | cy, [] => ⟨cy, none⟩
  | cy, node :: rest =>
    match searchNode q cy node with
    | .error e => ⟨cy, some e⟩
    | .ok cy' => searchNodes q cy' rest

/-- The callback of `cy.edges().forEach` in `handleSearch`. -/
def searchEdge (cy : Cy) (edge : Ele) : Cy :=
  if cy.visible (edge.get "source") && cy.visible (edge.get "target") then
    cy.show (edge.get "id")
  else cy.hide (edge.get "id")

/-- The handler `handleSearch(query)`. -/
def handleSearch (query : String) (cy : Cy) : Outcome :=
  if trim query = "" then ⟨cy.showAll, none⟩
  else
    let q := toLowerCase query
    match searchNodes q cy cy.nodes with
    | ⟨cy', some e⟩ => ⟨cy', some e⟩
    | ⟨cy', none⟩ => ⟨cy'.edges.foldl searchEdge cy', none⟩

end Actions

/-- The label or the nodeType of the element contains `q` without regard to
case. -/
def matchesQuery (q : String) (e : Cytoscape.Ele) : Bool :=
  includes (toLowerCase (textOf (e.get "label"))) (toLowerCase q) ||
    includes (toLowerCase (textOf (e.get "nodeType"))) (toLowerCase q)

/-- The value names a node of the store or no element at all. -/
def namesNoEdge (cy : Cytoscape.Cy) (id : JSVal) : Bool :=
  match cy.getElementById id with
  | some e => e.group = .nodes
  | none => true

/-- A store as the engine keeps it and the handlers fill it: the ids are
distinct strings, parents and edge endpoints name no edge, and the label and
the nodeType of every node are strings when present. -/
def Searchable (cy : Cytoscape.Cy) : Prop :=
  cy.ids.Nodup ∧ (∀ e ∈ cy.elements, isString (e.get "id") = true) ∧
    (∀ e ∈ cy.elements, namesNoEdge cy (e.get "parent") = true) ∧
    (∀ e ∈ cy.edges, namesNoEdge cy (e.get "source") = true ∧
      namesNoEdge cy (e.get "target") = true) ∧
    (∀ n ∈ cy.nodes, stringIfPresent (n.get "label") = true ∧
      stringIfPresent (n.get "nodeType") = true)

instance (cy : Cytoscape.Cy) : Decidable (Searchable cy) := by
  unfold Searchable; infer_instance

/-- The visibility marks of the elements, in order: the id and whether
`hide()` was applied last. -/
def hiddenMarks (cy : Cytoscape.Cy) : List (JSVal × Bool) :=
  cy.elements.map (fun e => (e.get "id", e.hidden))

open Cytoscape Actions in
/-- The store with the organization Acme (`n1`), the persons Bob (`n2`) and
Bobby (`n3`), Bob inside Acme, and the edge `e4` from Bob to Bobby. -/
def searchStore : Cy :=
  (handleAddEdge 4 (edgeFormOf "n2" "n3" "Family" "")
    (assignToCluster "n2" "n1"
      (handleAddNode 3 50 60 (nodeFormOf "Bobby" "Person") orgAndPerson).cy)).cy

/-- The store `cy` with the visibility marks replaced: the element `e` is
hidden when `h e` holds. -/
def withMarks (cy : Cytoscape.Cy) (h : Cytoscape.Ele → Bool) : Cytoscape.Cy :=
  ⟨cy.elements.map (fun e => { e with hidden := h e })⟩

/-- The visibility marks after the callback of `cy.nodes().forEach` in
`handleSearch` ran for the node `n`, from the marks `h`; `q` is the lower-cased
query. -/
def marksAfterNode (q : String) (n : Cytoscape.Ele) (h : Cytoscape.Ele → Bool) :
    Cytoscape.Ele → Bool :=
  fun e =>
    if includes (toLowerCase (textOf (n.get "label"))) q ||
        includes (toLowerCase (textOf (n.get "nodeType"))) q then
      if e.get "id" = n.get "id" then false else h e
    else if e.group = .edges ∧ (e.get "source" = n.get "id" ∨ e.get "target" = n.get "id") then
      true
    else if e.get "id" = n.get "id" then true else h e


/-! ## Part 8. Properties

### Lists processed with exceptions -/

open Kumu Cytoscape Actions Storage

theorem mapE_ok_forall₂ {α β : Type} (f : α → Except String β) :
    ∀ (xs : List α) (ys : List β), mapE f xs = .ok ys → List.Forall₂ (fun x y => f x = .ok y) xs ys
  | [], ys, h => by
    simp [mapE] at h; subst h; exact List.Forall₂.nil
  | x :: xs, ys, h => by
    unfold mapE at h
    split at h
    · cases h
    · rename_i y hy
      split at h
      · cases h
      · rename_i ys' hys
        cases h
        exact List.Forall₂.cons hy (mapE_ok_forall₂ f xs ys' hys)

theorem filterE_ok_eq {α : Type} (f : α → Except String Bool) (p : α → Bool)
    (hp : ∀ x b, f x = .ok b → b = p x) :
    ∀ (xs ys : List α), filterE f xs = .ok ys → ys = xs.filter p
  | [], ys, h => by
    simp [filterE] at h; subst h; rfl
  | x :: xs, ys, h => by
    unfold filterE at h
    split at h
    · cases h
    · rename_i b hb
      split at h
      · cases h
      · rename_i ys' hys
        cases h
        have ih := filterE_ok_eq f p hp xs ys' hys
        have hb' := hp x b hb
        subst hb'
        subst ih
        cases hpx : p x <;> simp [List.filter, hpx]

theorem field_of_getProp {v x : JSVal} {k : String} (h : getProp v k = .ok x) : field v k = x := by
  simp [field, h]

theorem arrayReceiver_ok {m : String} {v : JSVal} {xs : List JSVal}
    (h : arrayReceiver m v = .ok xs) : v = .arr xs := by
  cases v <;> simp [arrayReceiver] at h
  simp [h]

theorem items_orElse_nil (v : JSVal) {xs : List JSVal} (h : v.orElse (.arr []) = .arr xs) :
    items v = xs := by
  unfold JSVal.orElse at h
  split at h
  · rw [h]; rfl
  · cases h
    cases v <;> simp [items, JSVal.truthy] at *

/-! ### The converter keeps a connection exactly when both endpoints are given -/

theorem keepConnection_eq {conn : JSVal} {b : Bool} (h : keepConnection conn = .ok b) :
    b = hasEndpoints conn := by
  simp only [keepConnection] at h
  repeat' (split at h)
  all_goals cases h
  · rename_i hsrc hs
    simp_all [hasEndpoints, field_of_getProp hsrc]
  · rename_i hsrc hs _ tgt htgt
    simp_all [hasEndpoints, field_of_getProp hsrc, field_of_getProp htgt]

theorem forall₂_exists_left {α β : Type} {R : α → β → Prop} :
    ∀ {xs : List α} {ys : List β}, List.Forall₂ R xs ys → ∀ y ∈ ys, ∃ x ∈ xs, R x y
  | _, _, .nil, y, hy => by cases hy
  | _, _, .cons hr ht, y, hy => by
    rcases List.mem_cons.mp hy with rfl | hy
    · exact ⟨_, List.mem_cons_self _ _, hr⟩
    · obtain ⟨x, hx, hxy⟩ := forall₂_exists_left ht y hy
      exact ⟨x, List.mem_cons_of_mem _ hx, hxy⟩

theorem convertConnection_endpoints {conn e : JSVal} (h : convertConnection conn = .ok e) :
    dataField e "source" = field conn "from" ∧ dataField e "target" = field conn "to" := by
  simp only [convertConnection] at h
  repeat' (split at h)
  all_goals cases h
  rename_i hfrom hto _ _ _ _ _ _ _
  rw [field_of_getProp hfrom, field_of_getProp hto]
  exact ⟨rfl, rfl⟩

theorem convert_edges {d g : JSVal} (h : convertKumuToNative d = .ok g) :
    List.Forall₂ (fun c e => convertConnection c = .ok e)
      ((docConnections d).filter hasEndpoints) (graphEdges g) := by
  simp only [convertKumuToNative] at h
  repeat' (split at h)
  all_goals cases h
  rename_i cs hcs _ connections hconn _ kept hkept _ edges hedges
  have hv := items_orElse_nil _ (arrayReceiver_ok hconn)
  have hk := filterE_ok_eq keepConnection hasEndpoints (fun _ _ => keepConnection_eq) _ _ hkept
  unfold docConnections
  rw [field_of_getProp hcs, hv, ← hk]
  exact mapE_ok_forall₂ _ _ _ hedges

/-- C1, the claim as stated fails: for the scenario document the converter
returns one node and ONE edge, `c1`, whose target `missing` is the id of no
node of the result, so the result has a dangling edge. -/
theorem kumu_dangling_edge_is_kept :
    convertKumuToNative danglingDoc = .ok danglingNative ∧
      ¬ NoDanglingEdge danglingNative ∧
      (graphNodes danglingNative).length = 1 ∧ (graphEdges danglingNative).length = 1 ∧
      (graphEdges danglingNative).map (fun e => dataField e "target") = [.str "missing"] := by
  decide

/-- C1, amended: whenever `convertKumuToNative` returns, the edges of the result
are, in order, one for each connection of the document whose `from` and `to`
are both truthy, and each edge has that `from` as source and that `to` as
target; the endpoints are not looked up among the elements.  For the scenario
document the result is the node `a` (Person, label Bob) and the edge `c1` from
`a` to `missing`. -/
theorem kumu_edges_are_connections_with_endpoints (d g : JSVal)
    (h : convertKumuToNative d = .ok g) :
    List.Forall₂
        (fun c e => dataField e "source" = field c "from" ∧ dataField e "target" = field c "to")
        ((docConnections d).filter hasEndpoints) (graphEdges g) ∧
      (∀ e ∈ graphEdges g, (dataField e "source").truthy = true ∧
        (dataField e "target").truthy = true) ∧
      convertKumuToNative danglingDoc
        = .ok (.obj [("nodes", .arr [bobNode]), ("edges", .arr [danglingEdge])]) := by
  have hf := convert_edges h
  have h1 : List.Forall₂
      (fun c e => dataField e "source" = field c "from" ∧ dataField e "target" = field c "to")
      ((docConnections d).filter hasEndpoints) (graphEdges g) :=
    hf.imp (fun _ _ hce => convertConnection_endpoints hce)
  refine ⟨h1, ?_, by decide⟩
  intro e he
  obtain ⟨c, hc, hs, ht⟩ := forall₂_exists_left h1 e he
  have hc' := (List.mem_filter.mp hc).2
  simp only [hasEndpoints, Bool.and_eq_true] at hc'
  rw [hs, ht]
  exact hc'

/-- C1, amended, at the scenario document. -/
theorem kumu_edges_are_connections_with_endpoints_witness :
    List.Forall₂
        (fun c e => dataField e "source" = field c "from" ∧ dataField e "target" = field c "to")
        ((docConnections danglingDoc).filter hasEndpoints) (graphEdges danglingNative) :=
  (kumu_edges_are_connections_with_endpoints danglingDoc danglingNative (by decide)).1

/-! ### Export then import -/

/-- C2, the code at the failing input: the store `wiredOrgs` holds the edge `e3`
with display label `Wire`, custom label `Wire` and evidence items `[]`.  After
the export document is built, written and read back, and imported, the edge
`e3` has the display label `Financial` (its relationship) and no evidence
items at all: the export leaves both fields out and the import recomputes the
label from the relationship alone. -/
theorem export_import_resets_edge_label :
    edgeLabels wiredOrgs "e3" = some (.str "Wire", .str "Wire", .str "[]") ∧
      edgeLabels
          (importGraphFromJSON originPositions numberedIds
            (.parsed (jsonCopy (exportGraphToJSON wiredOrgs))) wiredOrgs).cy "e3"
        = some (.str "Financial", .str "Wire", .undefined) := by
  decide!

/-! ### Import rejections -/

/-- C4, the code at the failing input: importing the parseable document
`nodes: [{}]` into the store `wiredOrgs` (three elements) ends in the alert
`Invalid JSON file.`, and the store is left empty, not as it was. -/
theorem import_alert_after_store_cleared :
    importGraphFromJSON originPositions numberedIds (.parsed malformedNodesDoc) wiredOrgs
        = ⟨⟨[]⟩, ["Invalid JSON file."]⟩ ∧
      wiredOrgs.elements.length = 3 := by
  decide!

theorem getProp_ok {v : JSVal} (h : v.nullish = false) (k : String) :
    ∃ x, getProp v k = .ok x := by
  cases v <;> simp [JSVal.nullish] at h <;> simp only [getProp]
  all_goals first
    | exact ⟨_, rfl⟩
    | (split
       · exact ⟨_, rfl⟩
       · split <;> exact ⟨_, rfl⟩)

theorem getProp_eq_field {v : JSVal} (h : v.nullish = false) (k : String) :
    getProp v k = .ok (field v k) := by
  obtain ⟨x, hx⟩ := getProp_ok h k
  simp [field, hx]

/-- C5: when the file text does not parse, or parses to a value that has no
truthy `nodes` key and does not have both `elements` and `connections` as
arrays, the import handler shows exactly one alert and leaves the store as it
was. -/
theorem import_rejects_unrecognized (randomPosition : Nat → JSVal) (uuid : Nat → String)
    (content : FileContent) (cy : Cy)
    (h : content = .unparsable ∨
      ∃ raw, content = .parsed raw ∧ kumuShaped raw = false ∧ hasNodesKey raw = false) :
    (importGraphFromJSON randomPosition uuid content cy).alerts.length = 1 ∧
      (importGraphFromJSON randomPosition uuid content cy).cy = cy := by
  rcases h with rfl | ⟨raw, rfl, hk, hn⟩
  · exact ⟨rfl, rfl⟩
  · by_cases hnull : raw.nullish = true
    · cases raw <;> simp [JSVal.nullish] at hnull <;> exact ⟨rfl, rfl⟩
    · simp only [Bool.not_eq_true] at hnull
      simp only [importGraphFromJSON, detectFormat, getProp_eq_field hnull]
      simp only [kumuShaped, hasNodesKey] at hk hn
      cases he : (field raw "elements").isArray
      · simp [hn]
      · simp [he] at hk
        simp [hk, hn]

/-- C5 at the document `{"title": "notes"}` and the store `wiredOrgs`: one alert,
store unchanged. -/
theorem import_rejects_unrecognized_witness :
    (importGraphFromJSON originPositions numberedIds
        (.parsed (.obj [("title", .str "notes")])) wiredOrgs).alerts.length = 1 ∧
      (importGraphFromJSON originPositions numberedIds
        (.parsed (.obj [("title", .str "notes")])) wiredOrgs).cy = wiredOrgs :=
  import_rejects_unrecognized originPositions numberedIds _ wiredOrgs
    (Or.inr ⟨_, rfl, by decide, by decide⟩)

/-! ### Writes to the data of an element -/

theorem lookup_setProp_same (k : String) (v : JSVal) :
    ∀ ps : Props, (setProp ps k v).lookup k = some v
  | [] => by simp [setProp, List.lookup]
  | (k', v') :: rest => by
    unfold setProp
    split
    · simp [List.lookup]
    · rename_i hne
      have hb : (k == k') = false := by
        simp only [beq_eq_false_iff_ne, ne_eq]
        exact fun h => hne h.symm
      simp only [List.lookup, hb]
      exact lookup_setProp_same k v rest

theorem lookup_setProp_ne {k k' : String} (v : JSVal) (h : k' ≠ k) :
    ∀ ps : Props, (setProp ps k v).lookup k' = ps.lookup k'
  | [] => by
    have hb : (k' == k) = false := by simpa using h
    simp [setProp, List.lookup, hb]
  | (k₁, v₁) :: rest => by
    unfold setProp
    split
    · rename_i heq
      subst heq
      have hb : (k' == k₁) = false := by simpa using h
      simp [List.lookup, hb]
    · cases hb : (k' == k₁)
      · simp only [List.lookup, hb]
        exact lookup_setProp_ne v h rest
      · simp [List.lookup, hb]

theorem objGet_setProp_same (ps : Props) (k : String) (v : JSVal) :
    objGet (setProp ps k v) k = v := by
  simp [objGet, lookup_setProp_same]

theorem objGet_setProp_ne (ps : Props) (k k' : String) (v : JSVal) (h : k' ≠ k) :
    objGet (setProp ps k v) k' = objGet ps k' := by
  simp [objGet, lookup_setProp_ne v h]

theorem find?_map_of_preserved {α : Type} (p : α → Bool) (g : α → α)
    (hg : ∀ x, p (g x) = p x) : ∀ l : List α, (l.map g).find? p = (l.find? p).map g
  | [] => rfl
  | x :: l => by
    simp only [List.map_cons, List.find?_cons, hg]
    cases p x
    · exact find?_map_of_preserved p g hg l
    · rfl

theorem getElementById_setParent (cy : Cy) (a b : String) (v : JSVal) :
    (cy.setParent (.str a) v).getElementById (.str b) =
      (cy.getElementById (.str b)).map
        (fun e => if e.get "id" = .str a then { e with data := setProp e.data "parent" v } else e) := by
  simp only [Cy.setParent, Cy.update, Cy.getElementById]
  apply find?_map_of_preserved
  intro e
  split
  · rename_i h
    simp only [Ele.get]
    have := objGet_setProp_ne e.data "parent" "id" v (by decide)
    simp only [this]
  · rfl

theorem parentOf_setParent_same (cy : Cy) (a : String) (v : JSVal) (e : Ele)
    (h : cy.getElementById (.str a) = some e) :
    parentOf (cy.setParent (.str a) v) a = some v := by
  have hid : e.get "id" = .str a := by
    simp only [Cy.getElementById] at h
    simpa using List.find?_some h
  simp only [Ele.get] at hid
  simp only [parentOf, getElementById_setParent, h, Option.map_some', Ele.get, hid, if_true,
    objGet_setProp_same]

theorem parentOf_setParent_ne (cy : Cy) {a b : String} (v : JSVal) (h : b ≠ a) :
    parentOf (cy.setParent (.str a) v) b = parentOf cy b := by
  simp only [parentOf, getElementById_setParent, Option.map_map]
  cases hb : cy.getElementById (.str b) with
  | none => rfl
  | some e =>
    have hid : e.get "id" = .str b := by
      simp only [Cy.getElementById] at hb
      simpa using List.find?_some hb
    have hne : e.get "id" ≠ .str a := by
      rw [hid]
      intro hc
      exact h (JSVal.str.inj hc)
    simp [hne]

/-! ### Containment -/

theorem settleId_str {cy : Cy} {fresh id : String} {data d : Props}
    (hid : objGet data "id" = .str id) (h : cy.settleId fresh data = .ok d) :
    d = data ∧ id ≠ "" ∧ cy.hasElementWithId (.str id) = false := by
  simp only [Cy.settleId, hid] at h
  split at h
  · cases h
  · split at h
    · cases h
    · cases h
      rename_i h1 h2
      exact ⟨rfl, h1, by simpa using h2⟩
theorem settleEndpoint_str {cy : Cy} {field s : String} {data d : Props}
    (hs : objGet data field = .str s) (h : cy.settleEndpoint field data = .ok d) :
    d = data := by
  simp only [Cy.settleEndpoint, hs, idString] at h
  repeat' (split at h)
  all_goals cases h
  all_goals first
    | rfl
    | simp_all

theorem not_mem_ids_of_absent {cy : Cy} {id : String}
    (h : cy.hasElementWithId (.str id) = false) : JSVal.str id ∉ cy.ids := by
  have h' : List.find? (fun e => decide (e.get "id" = JSVal.str id)) cy.elements = none := by
    cases hf : List.find? (fun e => decide (e.get "id" = JSVal.str id)) cy.elements with
    | none => rfl
    | some x => simp [Cy.hasElementWithId, Cy.getElementById, hf] at h
  rw [List.find?_eq_none] at h'
  simp only [Cy.ids, List.mem_map, not_exists, not_and]
  intro e he heq
  exact absurd (decide_eq_true heq) (h' e he)

theorem add_with_id {cy cy' : Cy} {group : Group} {data : Props} {position : JSVal}
    (id : String) (h : cy.add "" group data position = .ok cy')
    (hid : objGet data "id" = .str id) (hp : objGet data "parent" = .undefined)
    (hs : group = .edges → ∃ s, objGet data "source" = .str s)
    (ht : group = .edges → ∃ t, objGet data "target" = .str t) :
    cy'.elements = cy.elements ++ [⟨group, data, position, false⟩] ∧ JSVal.str id ∉ cy.ids := by
  simp only [Cy.add] at h
  split at h
  · cases h
  · rename_i d1 h1
    obtain ⟨e1, _, habs⟩ := settleId_str hid h1
    subst e1
    refine ⟨?_, not_mem_ids_of_absent habs⟩
    cases group with
    | nodes =>
      simp only at h
      cases h
      simp [Cy.settleParent, hp, idString, JSVal.nullish]
    | edges =>
      obtain ⟨s, hs⟩ := hs rfl
      obtain ⟨t, ht⟩ := ht rfl
      simp only at h
      repeat' (split at h)
      all_goals cases h
      rename_i d2 h2 _ d3 h3
      have e2 := settleEndpoint_str hs h2
      subst e2
      have e3 := settleEndpoint_str ht h3
      subst e3
      rfl

theorem run_elements (c : Creation) (cy : Cy) :
    (c.run cy).elements = cy.elements ∨
      (JSVal.str c.newId ∉ cy.ids ∧
        ∃ e : Ele, e.get "id" = .str c.newId ∧ (c.run cy).elements = cy.elements ++ [e]) := by
  cases c with
  | node now rx ry form =>
    simp only [Creation.run, handleAddNode, Creation.newId]
    split
    · exact Or.inl rfl
    · split
      · exact Or.inl rfl
      · rename_i cy' hadd
        have := add_with_id (newNodeId now) hadd rfl rfl (by intro h; cases h) (by intro h; cases h)
        exact Or.inr ⟨this.2, _, by rfl, this.1⟩
  | edge now form =>
    simp only [Creation.run, handleAddEdge, Creation.newId]
    split
    · exact Or.inl rfl
    · split
      · exact Or.inl rfl
      · rename_i cy' hadd
        have := add_with_id (newEdgeId now) hadd rfl rfl (fun _ => ⟨_, rfl⟩) (fun _ => ⟨_, rfl⟩)
        exact Or.inr ⟨this.2, _, by rfl, this.1⟩

theorem run_ids (c : Creation) (cy : Cy) :
    (c.run cy).ids = cy.ids ∨
      (JSVal.str c.newId ∉ cy.ids ∧ (c.run cy).ids = cy.ids ++ [.str c.newId]) := by
  rcases run_elements c cy with h | ⟨hn, e, he, h⟩
  · exact Or.inl (by simp [Cy.ids, h])
  · exact Or.inr ⟨hn, by simp [Cy.ids, h, he]⟩

theorem runCreations_ids : ∀ (cs : List Creation) (cy : Cy) (id : JSVal),
    id ∈ (runCreations cs cy).ids → id ∈ cy.ids ∨ ∃ c ∈ cs, id = .str c.newId
  | [], _, _, h => Or.inl h
  | c :: cs, cy, id, h => by
    have h' : id ∈ (runCreations cs (c.run cy)).ids := h
    rcases runCreations_ids cs (c.run cy) id h' with h1 | ⟨c', hc', heq⟩
    · rcases run_ids c cy with e | ⟨_, e⟩
      · exact Or.inl (e ▸ h1)
      · rw [e, List.mem_append, List.mem_singleton] at h1
        rcases h1 with h1 | h1
        · exact Or.inl h1
        · exact Or.inr ⟨c, List.mem_cons_self _ _, h1⟩
    · exact Or.inr ⟨c', List.mem_cons_of_mem _ hc', heq⟩

theorem runCreations_nodup : ∀ (cs : List Creation) (cy : Cy),
    cy.ids.Nodup → (runCreations cs cy).ids.Nodup
  | [], _, h => h
  | c :: cs, cy, h => by
    apply runCreations_nodup cs (c.run cy)
    rcases run_ids c cy with e | ⟨hn, e⟩
    · rw [e]; exact h
    · rw [e]
      exact List.Nodup.append h (List.nodup_singleton _)
        (by simpa [List.disjoint_singleton] using hn)

/-! ### Generated ids -/

theorem digitChar_toNat (d : Nat) (h : d < 10) : (digitChar d).toNat - 48 = d := by
  interval_cases d <;> decide

theorem natDigits_value : ∀ (fuel n : Nat) (acc : List Char), n < fuel →
    digitsValue (natDigits fuel n acc) 0 = digitsValue acc n
  | 0, _, _, h => absurd h (Nat.not_lt_zero _)
  | fuel + 1, n, acc, h => by
    unfold natDigits
    split
    · rename_i hlt
      simp [digitsValue, digitChar_toNat n hlt]
    · rename_i hge
      have hdiv : n / 10 < fuel := by omega
      rw [natDigits_value fuel (n / 10) _ hdiv]
      simp only [digitsValue, List.foldl_cons]
      rw [digitChar_toNat (n % 10) (Nat.mod_lt _ (by decide))]
      congr 1
      omega

theorem natToString_injective {a b : Nat} (h : natToString a = natToString b) : a = b := by
  have ha := natDigits_value (a + 1) a [] (Nat.lt_succ_self a)
  have hb := natDigits_value (b + 1) b [] (Nat.lt_succ_self b)
  have hd : natDigits (a + 1) a [] = natDigits (b + 1) b [] := by
    simpa [natToString] using congrArg String.data h
  rw [hd, hb] at ha
  simpa [digitsValue] using ha.symm

theorem newNodeId_injective {a b : Nat} (h : newNodeId a = newNodeId b) : a = b := by
  apply natToString_injective
  have := congrArg String.data h
  simp only [newNodeId, String.data_append] at this
  exact String.ext (List.append_cancel_left this)

theorem newEdgeId_injective {a b : Nat} (h : newEdgeId a = newEdgeId b) : a = b := by
  apply natToString_injective
  have := congrArg String.data h
  simp only [newEdgeId, String.data_append] at this
  exact String.ext (List.append_cancel_left this)

theorem newNodeId_ne_newEdgeId (a b : Nat) : newNodeId a ≠ newEdgeId b := by
  intro h
  have := congrArg String.data h
  simp [newNodeId, newEdgeId, String.data_append] at this

theorem Creation.newId_injective {c c' : Creation} (h : c.newId = c'.newId) :
    c.clock = c'.clock := by
  cases c <;> cases c' <;> simp only [Creation.newId, Creation.clock] at *
  · exact newNodeId_injective h
  · exact absurd h (newNodeId_ne_newEdgeId _ _)
  · exact absurd h.symm (newNodeId_ne_newEdgeId _ _)
  · exact newEdgeId_injective h

theorem mapE_ok_of_forall {α β : Type} (f : α → Except String β) :
    ∀ (xs : List α), (∀ x ∈ xs, ∃ y, f x = .ok y) → ∃ ys, mapE f xs = .ok ys
  | [], _ => ⟨[], rfl⟩
  | x :: xs, h => by
    obtain ⟨y, hy⟩ := h x (List.mem_cons_self _ _)
    obtain ⟨ys, hys⟩ := mapE_ok_of_forall f xs (fun z hz => h z (List.mem_cons_of_mem _ hz))
    exact ⟨y :: ys, by simp [mapE, hy, hys]⟩

theorem filterE_ok_of_forall {α : Type} (f : α → Except String Bool) :
    ∀ (xs : List α), (∀ x ∈ xs, ∃ b, f x = .ok b) →
      ∃ ys, filterE f xs = .ok ys ∧ ∀ y ∈ ys, y ∈ xs
  | [], _ => ⟨[], rfl, fun _ h => h⟩
  | x :: xs, h => by
    obtain ⟨b, hb⟩ := h x (List.mem_cons_self _ _)
    obtain ⟨ys, hys, hsub⟩ :=
      filterE_ok_of_forall f xs (fun z hz => h z (List.mem_cons_of_mem _ hz))
    refine ⟨if b then x :: ys else ys, by simp [filterE, hb, hys], ?_⟩
    intro y hy
    cases b
    · exact List.mem_cons_of_mem _ (hsub y (by simpa using hy))
    · simp at hy
      rcases hy with rfl | hy
      · exact List.mem_cons_self _ _
      · exact List.mem_cons_of_mem _ (hsub y hy)

theorem foldE_ok_of_forall {α σ : Type} (f : σ → α → Except String σ) :
    ∀ (xs : List α) (s : σ), (∀ s', ∀ x ∈ xs, ∃ t, f s' x = .ok t) → ∃ t, foldE f s xs = .ok t
  | [], s, _ => ⟨s, rfl⟩
  | x :: xs, s, h => by
    obtain ⟨t, ht⟩ := h s x (List.mem_cons_self _ _)
    obtain ⟨u, hu⟩ :=
      foldE_ok_of_forall f xs t (fun s' z hz => h s' z (List.mem_cons_of_mem _ hz))
    exact ⟨u, by simp [foldE, ht, hu]⟩

theorem toStr_ok_of_primitive {v : JSVal} (h : isPrimitive v = true) : ∃ s, toStr v = .ok s := by
  cases v <;> simp [isPrimitive] at h
  · exact ⟨_, rfl⟩
  · exact ⟨_, rfl⟩
  · rename_i b; cases b <;> exact ⟨_, rfl⟩
  · rename_i n; exact ⟨intToString n, by simp [toStr]⟩
  · rename_i s; exact ⟨s, by simp [toStr]⟩

theorem not_nullish_of_truthy {v : JSVal} (h : v.truthy = true) : v.nullish = false := by
  cases v <;> simp [JSVal.truthy] at h <;> rfl

theorem attrsOf_not_nullish (entry : JSVal) : (attrsOf entry).nullish = false := by
  unfold attrsOf JSVal.orElse
  split
  · rename_i h; exact not_nullish_of_truthy h
  · rfl

theorem objectKeys_ok {v : JSVal} (h : v.nullish = false) : ∃ ks, objectKeys v = .ok ks := by
  cases v <;> simp [JSVal.nullish] at h <;> exact ⟨_, rfl⟩

theorem getAttr_eq_attrOf {attrs : JSVal} (h : attrs.nullish = false) (key : String) :
    getAttr attrs key = .ok (attrOf attrs key) := by
  have : ∃ v, getAttr attrs key = .ok v := by
    obtain ⟨ks, hks⟩ := objectKeys_ok h
    simp only [getAttr, getProp_eq_field h, hks]
    split
    · exact ⟨_, rfl⟩
    · split
      · exact ⟨_, rfl⟩
      · exact ⟨_, rfl⟩
  obtain ⟨v, hv⟩ := this
  simp [attrOf, hv]

theorem normalized_str (s : String) : normalized (.str s) = .ok (trim (toLowerCase s)) := rfl

theorem stringIfPresent_orElse {t : JSVal} (h : stringIfPresent t = true) :
    ∃ s, t.orElse (.str "") = .str s := by
  unfold JSVal.orElse
  split
  · rename_i ht
    simp only [stringIfPresent, ht, Bool.not_true, Bool.false_or] at h
    cases t <;> simp [isString] at h
    exact ⟨_, rfl⟩
  · exact ⟨_, rfl⟩

theorem mapNodeType_str (s : String) : ∃ r, mapNodeType (.str s) = .ok r := by
  simp only [mapNodeType, normalized_str]
  split <;> exact ⟨_, rfl⟩

theorem typeTags_str (r : JSVal) (s : String) : ∃ ts, typeTags r (.str s) = .ok ts := by
  simp only [typeTags, normalized_str, stringReceiver]
  split <;> exact ⟨_, rfl⟩

theorem descriptionPart_ok {attrs : JSVal} (hn : attrs.nullish = false)
    (h : stringIfPresent (field attrs "description") = true) :
    ∃ ds, descriptionPart attrs = .ok ds := by
  obtain ⟨s, hs⟩ := stringIfPresent_orElse h
  simp only [descriptionPart, getProp_eq_field hn, hs, stringReceiver]
  exact ⟨_, rfl⟩

theorem metaPart_ok {attrs : JSVal} (hn : attrs.nullish = false) (entry : String × String)
    (h : isPrimitive (field attrs entry.1) = true) : ∃ ps, metaPart attrs entry = .ok ps := by
  obtain ⟨s, hs⟩ := toStr_ok_of_primitive h
  simp only [metaPart, getProp_eq_field hn, hs]
  split <;> exact ⟨_, rfl⟩

theorem buildMetadata_ok {attrs : JSVal} (r : JSVal) (s : String) (hn : attrs.nullish = false)
    (hd : stringIfPresent (field attrs "description") = true)
    (hm : META_ATTRS.all (fun m => isPrimitive (field attrs m.1)) = true) :
    ∃ m, buildMetadata attrs r (.str s) = .ok m := by
  obtain ⟨ts, hts⟩ := typeTags_str r s
  obtain ⟨ds, hds⟩ := descriptionPart_ok hn hd
  obtain ⟨es, hes⟩ := mapE_ok_of_forall (metaPart attrs) META_ATTRS
    (fun e he => metaPart_ok hn e (List.all_eq_true.mp hm e he))
  simp only [buildMetadata, hts, hds, hes]
  exact ⟨_, rfl⟩

theorem convertElement_ok (positionMap : PosMap) {el : JSVal}
    (h : wellFormedElement el = true) : ∃ n, convertElement positionMap el = .ok n := by
  simp only [wellFormedElement, Bool.and_eq_true, Bool.not_eq_true'] at h
  obtain ⟨⟨⟨⟨hnull, hid⟩, htype⟩, hdesc⟩, hmeta⟩ := h
  have ha := attrsOf_not_nullish el
  obtain ⟨s, hs⟩ := stringIfPresent_orElse htype
  obtain ⟨r, hr⟩ := mapNodeType_str s
  obtain ⟨m, hm⟩ := buildMetadata_ok r s ha hdesc hmeta
  obtain ⟨key, hkey⟩ := toStr_ok_of_primitive hid
  unfold attrsOf at ha hs hm
  simp only [convertElement, getProp_eq_field hnull, getAttr_eq_attrOf ha, hs, hr, hm, hkey]
  exact ⟨_, rfl⟩

theorem keepConnection_ok {conn : JSVal} (h : conn.nullish = false) :
    ∃ b, keepConnection conn = .ok b := by
  simp only [keepConnection, getProp_eq_field h]
  split <;> exact ⟨_, rfl⟩

theorem mapRelationship_ok {ct : JSVal} (label : JSVal) (h : stringIfPresent ct = true) :
    ∃ r, mapRelationship ct label = .ok r := by
  unfold mapRelationship
  split
  · exact ⟨_, rfl⟩
  · by_cases hct : ct.truthy = true
    · simp only [stringIfPresent, hct, Bool.not_true, Bool.false_or] at h
      cases ct <;> simp [isString] at h
      simp only [hct, if_true, normalized_str]
      split <;> exact ⟨_, rfl⟩
    · simp only [hct, Bool.false_eq_true, if_false]
      split <;> exact ⟨_, rfl⟩

theorem mapDirection_ok {dir : JSVal} (h : stringIfPresent dir = true) :
    ∃ r, mapDirection dir = .ok r := by
  unfold mapDirection
  split
  · exact ⟨_, rfl⟩
  · rename_i hd
    simp only [Bool.not_eq_true', Bool.not_eq_false] at hd
    simp only [stringIfPresent, hd, Bool.not_true, Bool.false_or] at h
    cases dir <;> simp [isString] at h
    simp only [normalized_str]
    exact ⟨_, rfl⟩

theorem convertConnection_ok {conn : JSVal} (h : wellFormedConnection conn = true) :
    ∃ e, convertConnection conn = .ok e := by
  simp only [wellFormedConnection, Bool.and_eq_true, Bool.not_eq_true'] at h
  obtain ⟨⟨hnull, htype⟩, hdir⟩ := h
  have ha := attrsOf_not_nullish conn
  obtain ⟨r, hr⟩ := mapRelationship_ok (attrOf (attrsOf conn) "label") htype
  obtain ⟨dir, hdir'⟩ := mapDirection_ok hdir
  unfold attrsOf at ha hr
  simp only [convertConnection, getProp_eq_field hnull, getAttr_eq_attrOf ha, hr, hdir']
  exact ⟨_, rfl⟩

theorem addPosition_ok (posMap : PosMap) {mapEl : JSVal} (h : wellFormedMapItem mapEl = true) :
    ∃ pm, addPosition posMap mapEl = .ok pm := by
  simp only [wellFormedMapItem, Bool.and_eq_true, Bool.not_eq_true'] at h
  obtain ⟨hnull, hel⟩ := h
  obtain ⟨key, hkey⟩ := toStr_ok_of_primitive hel
  simp only [addPosition, getProp_eq_field hnull, hkey]
  split
  · exact ⟨_, rfl⟩
  · split
    · exact ⟨_, rfl⟩
    · rename_i hp
      simp only [Bool.not_eq_true', Bool.not_eq_false] at hp
      simp only [getProp_eq_field (not_nullish_of_truthy hp)]
      split
      · exact ⟨_, rfl⟩
      · split <;> exact ⟨_, rfl⟩

theorem buildPositionMap_ok {maps : JSVal} (h : wellFormedMaps maps = true) :
    ∃ pm, buildPositionMap maps = .ok pm := by
  unfold buildPositionMap
  by_cases ht : maps.truthy = true
  · simp only [wellFormedMaps, ht, Bool.not_true, Bool.false_or] at h
    simp only [ht, Bool.not_true]
    split at h
    · exact ⟨⟨[], none⟩, by simp [getProp]⟩
    · rename_i first rest
      simp only [Bool.and_eq_true, Bool.not_eq_true', Bool.or_eq_true] at h
      obtain ⟨hfirst, hels⟩ := h
      have h0 : getProp (.arr (first :: rest)) "0" = .ok first := by
        have hz : (natToString 0 == "0") = true := by decide
        simp [getProp, atIndexKey, List.enum, List.enumFrom, List.find?, hz]
      have hlen : getProp (.arr (first :: rest)) "length" = .ok (.num ((first :: rest).length)) := by
        simp [getProp]
      have hne : (JSVal.num ((first :: rest).length : Nat)) ≠ .num 0 := by
        intro hc
        have := JSVal.num.inj hc
        simp at this
        omega
      simp only [hlen, hne, h0, getProp_eq_field hfirst]
      rcases hels with hf | hf
      · simp [hf]
      · split at hf
        · rename_i ms hms
          simp only [hms, arrayReceiver, JSVal.truthy]
          obtain ⟨t, ht'⟩ := foldE_ok_of_forall addPosition ms ⟨[], none⟩
            (fun s' x hx => addPosition_ok s' (List.all_eq_true.mp hf x hx))
          simp [ht']
        · cases hf
    · cases h
  · simp [ht]

theorem arrayReceiver_items {m : String} {v : JSVal} (h : arrayIfPresent v = true) :
    arrayReceiver m (v.orElse (.arr [])) = .ok (items v) := by
  unfold JSVal.orElse
  by_cases ht : v.truthy = true
  · simp only [arrayIfPresent, ht, Bool.not_true, Bool.false_or] at h
    cases v <;> simp [JSVal.isArray] at h
    simp [ht, arrayReceiver, items]
  · cases v <;> simp [JSVal.truthy] at ht <;> simp [JSVal.truthy, arrayReceiver, items, *]

theorem mem_closure_of_mem (cy : Cy) (x : JSVal) :
    ∀ (fuel : Nat) (r : List JSVal), x ∈ r → x ∈ cy.closure fuel r
  | 0, _, h => h
  | fuel + 1, r, h => by
    unfold Cy.closure
    exact mem_closure_of_mem cy x fuel _ (by simp [Cy.addChildren, h])

/-- C8: when `id` names a node of the store, after `deleteElement(id)` no element
of the store has the id `id` and no edge of the store has `id` as its source
or as its target. -/
theorem delete_node_cascades (cy : Cy) (id : String)
    (h : (cy.getElementById (.str id)).map (fun e => e.group) = some .nodes) :
    (deleteElement id cy).getElementById (.str id) = none ∧
      (∀ e ∈ (deleteElement id cy).elements, e.get "id" ≠ .str id) ∧
      (∀ e ∈ (deleteElement id cy).edges,
        e.get "source" ≠ .str id ∧ e.get "target" ≠ .str id) := by
  have hmem : JSVal.str id ∈ cy.withDescendants (.str id) :=
    mem_closure_of_mem cy _ _ _ (List.mem_singleton.mpr rfl)
  cases hg : cy.getElementById (.str id) with
  | none => simp [hg] at h
  | some n =>
    simp only [hg, Option.map_some', Option.some.injEq] at h
    have key : ∀ e ∈ (deleteElement id cy).elements, e.get "id" ∉ cy.withDescendants (.str id) ∧
        (e.group = .edges → e.get "source" ∉ cy.withDescendants (.str id) ∧
          e.get "target" ∉ cy.withDescendants (.str id)) := by
      intro e he
      simp only [deleteElement, Cy.remove, hg, h] at he
      have := (List.mem_filter.mp he).2
      simp only [decide_eq_true_eq] at this
      exact this
    refine ⟨?_, ?_, ?_⟩
    · simp only [Cy.getElementById]
      rw [List.find?_eq_none]
      intro e he
      have := (key e he).1
      simp only [decide_eq_true_eq]
      intro heq
      exact this (heq ▸ hmem)
    · intro e he heq
      exact (key e he).1 (heq ▸ hmem)
    · intro e he
      have hin := (List.mem_filter.mp he)
      have hgrp : e.group = .edges := by simpa using hin.2
      have := (key e hin.1).2 hgrp
      exact ⟨fun heq => this.1 (heq ▸ hmem), fun heq => this.2 (heq ▸ hmem)⟩

/-- C8 at the store `wiredOrgs`: deleting the node `n1` also removes the edge
`e3` that starts at it. -/
theorem delete_node_cascades_witness :
    (deleteElement "n1" wiredOrgs).getElementById (.str "n1") = none ∧
      (∀ e ∈ (deleteElement "n1" wiredOrgs).elements, e.get "id" ≠ .str "n1") ∧
      (∀ e ∈ (deleteElement "n1" wiredOrgs).edges,
        e.get "source" ≠ .str "n1" ∧ e.get "target" ≠ .str "n1") :=
  delete_node_cascades wiredOrgs "n1" (by decide!)

/-! ### Rejected creations -/

theorem trim_of_blank (s : String) (h : s.data.all isWhiteSpace = true) : trim s = "" := by
  have h1 : s.data.dropWhile isWhiteSpace = [] := by
    rw [List.dropWhile_eq_nil_iff]
    intro c hc
    exact List.all_eq_true.mp h c hc
  simp [trim, h1]

/-- C9: a node form whose label is empty or only whitespace, and an edge form
whose source is empty, whose target is empty, or whose source equals its
target, are rejected: the handler returns the store as it was and throws
nothing.  Consequently every element that `handleAddEdge` adds is an edge
whose source and target are those of the form and differ. -/
theorem rejected_creations_leave_store (cy : Cy) (now : Nat) (rx ry : Int)
    (nodeForm : NodeForm) (edgeForm : EdgeForm) :
    (nodeForm.label.data.all isWhiteSpace = true →
        handleAddNode now rx ry nodeForm cy = ⟨cy, none⟩) ∧
      (edgeForm.source = "" ∨ edgeForm.target = "" ∨ edgeForm.source = edgeForm.target →
        handleAddEdge now edgeForm cy = ⟨cy, none⟩) ∧
      (∀ e ∈ (handleAddEdge now edgeForm cy).cy.elements, e ∉ cy.elements →
        e.group = .edges ∧ e.get "source" = .str edgeForm.source ∧
          e.get "target" = .str edgeForm.target ∧ e.get "source" ≠ e.get "target") := by
  refine ⟨?_, ?_, ?_⟩
  · intro h
    simp [handleAddNode, trim_of_blank _ h]
  · intro h
    simp [handleAddEdge, h]
  · intro e he hne
    simp only [handleAddEdge] at he
    split at he
    · exact absurd he hne
    · rename_i hguard
      simp only [not_or] at hguard
      split at he
      · exact absurd he hne
      · rename_i cy' hadd
        have hel := (add_with_id (newEdgeId now) hadd rfl rfl (fun _ => ⟨_, rfl⟩)
          (fun _ => ⟨_, rfl⟩)).1
        simp only [hel, List.mem_append, List.mem_singleton] at he
        rcases he with he | he
        · exact absurd he hne
        · subst he
          refine ⟨rfl, rfl, rfl, ?_⟩
          show JSVal.str edgeForm.source ≠ JSVal.str edgeForm.target
          intro heq
          exact hguard.2.2 (JSVal.str.inj heq)

/-- C9 at the store `twoOrgs`: a blank label and a self-loop are both rejected. -/
theorem rejected_creations_leave_store_witness :
    handleAddNode 7 0 0 (nodeFormOf "  " "Person") twoOrgs = ⟨twoOrgs, none⟩ ∧
      handleAddEdge 7 (edgeFormOf "n1" "n1" "Personal" "") twoOrgs = ⟨twoOrgs, none⟩ :=
  ⟨(rejected_creations_leave_store twoOrgs 7 0 0 (nodeFormOf "  " "Person")
      (edgeFormOf "n1" "n1" "Personal" "")).1 (by decide),
    (rejected_creations_leave_store twoOrgs 7 0 0 (nodeFormOf "  " "Person")
      (edgeFormOf "n1" "n1" "Personal" "")).2.1 (Or.inr (Or.inr rfl))⟩

/-! ### Containment after an edit -/

/-- C10, the code at the failing input: Bob (`n2`) is put into the organization
Acme (`n1`), then Acme is edited and saved with the type Person.  Bob still
has the parent `n1`, whose nodeType is now `Person`. -/
theorem retyped_parent_keeps_children :
    parentOf bobInAcme "n2" = some (.str "n1") ∧
      nodeTypeOf bobInAcme "n1" = some (.str "Organization") ∧
      parentOf (saveEditNode acmeAsPerson bobInAcme).cy "n2" = some (.str "n1") ∧
      nodeTypeOf (saveEditNode acmeAsPerson bobInAcme).cy "n1" = some (.str "Person") ∧
      (saveEditNode acmeAsPerson bobInAcme).thrown = none := by
  decide!

/-! ### The mapping tables and inherited member names -/

/-- C12, the code at the failing input: the two scenario connections map as the
claim says, but the connection type `constructor`, which is not in
`KUMU_RELATIONSHIP_MAP`, does not give the relationship `Unknown`: the table
read finds the member `constructor` that every object inherits, and the
relationship of the native edge is that function. -/
theorem relationship_of_inherited_name :
    mapRelationship (.str "financial") (.str "Wire") = .ok (.str "Financial", .str "Wire") ∧
      mapRelationship (.str "informant") .undefined = .ok (.str "Unknown", .str "informant") ∧
      mapRelationship (.str "constructor") (.str "Wire")
        = .ok (.builtin "constructor", .str "Wire") ∧
      edgeFields (converted (typedDoc "person" "constructor" "Wire")) "relationship"
        = [.builtin "constructor"] ∧
      edgeFields (converted (typedDoc "person" "constructor" "Wire")) "customLabel"
        = [.str "Wire"] := by
  decide!

/-- C13, the code at the failing input: the element type `constructor` (and
` __PROTO__ `, which normalizes to `__proto__`) is not in `KUMU_TYPE_MAP`, yet
`mapNodeType` does not give `Person`: the table read finds the inherited
member, and the nodeType of the converted node is none of the native node
types. -/
theorem nodeType_of_inherited_name :
    mapNodeType (.str "constructor") = .ok (.builtin "constructor") ∧
      mapNodeType (.str " __PROTO__ ") = .ok (.builtin "__proto__") ∧
      mapNodeType (.str "gang") = .ok (.str "Person") ∧
      nodeFields (converted (typedDoc "constructor" "financial" "Wire")) "nodeType"
        = [.builtin "constructor", .str "Person"] ∧
      isNodeType (.builtin "constructor") = false := by
  decide!

/-! ### Export, import and the display label; the order of imported nodes -/

/-- C19, the code at the failing input: in the store `wiredOrgs` the edge `e3`,
placed by `handleAddEdge`, follows the display label rule.  After the store is
exported and the native export document imported, the edge `e3` has the custom
label `Wire` but the display label `Financial`: the rule is broken. -/
theorem native_import_breaks_label_rule :
    (∀ e ∈ wiredOrgs.edges, LabelRule e) ∧
      ¬ (∀ e ∈ (importGraphFromJSON originPositions numberedIds
          (.parsed (jsonCopy (exportGraphToJSON wiredOrgs))) wiredOrgs).cy.edges, LabelRule e) ∧
      (importGraphFromJSON originPositions numberedIds
          (.parsed (jsonCopy (exportGraphToJSON wiredOrgs))) wiredOrgs).cy.edges.map
        (fun e => (e.get "customLabel", e.get "relationship", e.get "label"))
        = [(.str "Wire", .str "Financial", .str "Financial")] := by
  decide!

/-- C20, the code at the failing input: the export of `nestedThree` is a native
document with distinct ids and parents inside the document (`n1` in `n2`, `n2`
in `n3`).  The sort puts `n3` first and leaves `n1` before its parent `n2`, so
the import adds `n1` before `n2`; the engine finds no parent for `n1` and the
imported `n1` has none. -/
theorem nested_child_added_before_parent :
    closedContainment (graphNodes nestedThreeDoc) ∧
      nodeFields nestedThreeDoc "parent" = [.str "n2", .str "n3", .undefined] ∧
      (sortNodes (graphNodes nestedThreeDoc)).map
          (fun sorted => sorted.map (fun n => dataField n "id"))
        = .ok [.str "n3", .str "n1", .str "n2"] ∧
      (sortNodes (graphNodes nestedThreeDoc)).map (parentsFirst []) = .ok false ∧
      (importGraphFromJSON originPositions numberedIds (.parsed nestedThreeDoc) nestedThree).cy.ids
        = [.str "n3", .str "n1", .str "n2"] ∧
      parentOf nestedThree "n1" = some (.str "n2") ∧
      parentOf (importGraphFromJSON originPositions numberedIds (.parsed nestedThreeDoc)
        nestedThree).cy "n1" = some .undefined := by
  decide!

/-! ### Tags -/

theorem dropWhile_head_not {α : Type} (p : α → Bool) :
    ∀ (l : List α) (x : α) (rest : List α), l.dropWhile p = x :: rest → p x = false
  | [], _, _, h => by simp at h
  | a :: l, x, rest, h => by
    rw [List.dropWhile_cons] at h
    split at h
    · exact dropWhile_head_not p l x rest h
    · rename_i hp
      cases h
      simpa using hp

theorem blank_of_trim_empty (s : String) (h : trim s = "") : s.data.all isWhiteSpace = true := by
  have h0 : ((s.data.dropWhile isWhiteSpace).reverse.dropWhile isWhiteSpace).reverse = [] := by
    have := congrArg String.data h
    simpa [trim] using this
  have h1 : (s.data.dropWhile isWhiteSpace).reverse.dropWhile isWhiteSpace = [] := by
    simpa using h0
  rw [List.dropWhile_eq_nil_iff] at h1
  have h2 : s.data.dropWhile isWhiteSpace = [] := by
    cases hd : s.data.dropWhile isWhiteSpace with
    | nil => rfl
    | cons x rest =>
      have hx := dropWhile_head_not _ _ _ _ hd
      have := h1 x (by simp [hd])
      simp [hx] at this
  rw [List.dropWhile_eq_nil_iff] at h2
  exact List.all_eq_true.mpr h2

theorem mem_of_mem_splitChars (sep : Char) :
    ∀ (cs : List Char) (p : List Char), p ∈ splitChars sep cs → ∀ c ∈ p, c ∈ cs
  | [], p, hp, c, hc => by
    simp [splitChars] at hp
    subst hp
    cases hc
  | a :: cs, p, hp, c, hc => by
    unfold splitChars at hp
    split at hp
    · rcases List.mem_cons.mp hp with rfl | hp
      · cases hc
      · exact List.mem_cons_of_mem _ (mem_of_mem_splitChars sep cs p hp c hc)
    · split at hp
      · simp at hp
        subst hp
        simp at hc
        subst hc
        exact List.mem_cons_self _ _
      · rename_i q qs hq
        rcases List.mem_cons.mp hp with rfl | hp
        · rcases List.mem_cons.mp hc with rfl | hc
          · exact List.mem_cons_self _ _
          · exact List.mem_cons_of_mem _
              (mem_of_mem_splitChars sep cs q (by rw [hq]; exact List.mem_cons_self _ _) c hc)
        · exact List.mem_cons_of_mem _
            (mem_of_mem_splitChars sep cs p (by rw [hq]; exact List.mem_cons_of_mem _ hp) c hc)

theorem tagPieces_of_blank (s : String) (h : trim s = "") : tagPieces s = [] := by
  have hb := blank_of_trim_empty s h
  simp only [tagPieces, List.filter_eq_nil_iff, List.mem_map, splitComma]
  rintro t ⟨q, ⟨p, hp, rfl⟩, rfl⟩
  have : trim (String.mk p) = "" := by
    apply trim_of_blank
    apply List.all_eq_true.mpr
    intro c hc
    exact List.all_eq_true.mp hb c (mem_of_mem_splitChars ',' s.data p hp c hc)
  simp [this]

theorem tagEntries_str (s : String) : tagEntries (.str s) = (tagPieces s).map .str := by
  unfold tagEntries
  simp only
  split
  · rfl
  · rename_i h
    simp only [ne_eq, not_not] at h
    rw [tagPieces_of_blank s h]
    rfl

theorem stringify_arr (xs : List JSVal) :
    stringify (.arr xs) = some ("[" ++ ",".intercalate (stringifyItems xs) ++ "]") := by
  rw [stringify]

theorem filter_map_fixed {α : Type} (p : α → Bool) (g : α → α) :
    ∀ l : List α, (∀ x ∈ l, p (g x) = p x) → (∀ x ∈ l, p x = true → g x = x) →
      (l.map g).filter p = l.filter p
  | [], _, _ => rfl
  | x :: l, h1, h2 => by
    have ih := filter_map_fixed p g l (fun y hy => h1 y (List.mem_cons_of_mem _ hy))
      (fun y hy => h2 y (List.mem_cons_of_mem _ hy))
    have hx := h1 x (List.mem_cons_self _ _)
    simp only [List.map_cons, List.filter_cons, hx, ih]
    cases hp : p x
    · simp
    · simp [h2 x (List.mem_cons_self _ _) hp]

theorem onlyParentChanged_refl (e : Ele) : OnlyParentChanged e e :=
  ⟨rfl, rfl, rfl, fun _ _ => rfl⟩

theorem onlyParentChanged_set (e : Ele) (v : JSVal) :
    OnlyParentChanged e { e with data := setProp e.data "parent" v } :=
  ⟨rfl, rfl, rfl, fun k hk => objGet_setProp_ne e.data "parent" k v hk⟩

theorem onlyParentChanged_trans {a b c : Ele} (h1 : OnlyParentChanged a b)
    (h2 : OnlyParentChanged b c) : OnlyParentChanged a c :=
  ⟨h2.1.trans h1.1, h2.2.1.trans h1.2.1, h2.2.2.1.trans h1.2.2.1,
    fun k hk => (h2.2.2.2 k hk).trans (h1.2.2.2 k hk)⟩

theorem setParent_elements (cy : Cy) (a : String) (v : JSVal) :
    (cy.setParent (.str a) v).elements = cy.elements.map
      (fun e => if e.get "id" = .str a then { e with data := setProp e.data "parent" v } else e) :=
  rfl

theorem setParent_step (cy : Cy) (a : String) (v : JSVal) :
    List.Forall₂ (fun e e' => OnlyParentChanged e e' ∧ e'.get "id" = e.get "id" ∧
        (e.get "id" ≠ .str a → e' = e))
      cy.elements (cy.setParent (.str a) v).elements := by
  rw [setParent_elements, List.forall₂_map_right_iff, List.forall₂_same]
  intro e _
  by_cases h : e.get "id" = .str a
  · rw [if_pos h]
    refine ⟨onlyParentChanged_set e v, ?_, fun hne => absurd h hne⟩
    exact objGet_setProp_ne e.data "parent" "id" v (by decide)
  · rw [if_neg h]
    exact ⟨onlyParentChanged_refl e, rfl, fun _ => rfl⟩

theorem element_of_id {cy : Cy} {a : String} {n e : Ele} (hn : cy.ids.Nodup)
    (hg : cy.getElementById (.str a) = some n) (he : e ∈ cy.elements)
    (hid : e.get "id" = .str a) : e = n := by
  simp only [Cy.getElementById] at hg
  have hmem := List.mem_of_find?_eq_some hg
  have hnid : n.get "id" = .str a := by simpa using List.find?_some hg
  exact List.inj_on_of_nodup_map hn he hmem (hid.trans hnid.symm)

theorem ele_setData_frame (e : Ele) (k : String) (v : JSVal) :
    (e.setData k v).group = e.group ∧ (e.setData k v).position = e.position ∧
      (e.setData k v).hidden = e.hidden ∧ (e.setData k v).get "id" = e.get "id" := by
  unfold Ele.setData
  split
  · exact ⟨rfl, rfl, rfl, rfl⟩
  · rename_i h
    refine ⟨rfl, rfl, rfl, ?_⟩
    have hk : "id" ≠ k := by
      intro hk
      apply h
      right
      rw [← hk]
      decide
    exact objGet_setProp_ne e.data k "id" v hk

theorem ele_setData_get (e : Ele) (k k' : String) (v : JSVal) :
    (e.setData k v).get k' =
      if k = k' ∧ ¬ (v = .undefined ∨ k ∈ ["id", "source", "target", "parent"]) then v
      else e.get k' := by
  unfold Ele.setData
  by_cases h : v = .undefined ∨ k ∈ ["id", "source", "target", "parent"]
  · rw [if_pos h, if_neg (fun hh => hh.2 h)]
  · rw [if_neg h]
    by_cases hk : k = k'
    · rw [if_pos ⟨hk, h⟩]
      subst hk
      exact objGet_setProp_same e.data k v
    · rw [if_neg (fun hh => hk hh.1)]
      exact objGet_setProp_ne e.data k k' v (fun hh => hk hh.symm)

theorem foldl_ele_setData (ws : List (String × JSVal)) :
    ∀ e : Ele, (ws.foldl (fun e w => e.setData w.1 w.2) e).group = e.group ∧
      (ws.foldl (fun e w => e.setData w.1 w.2) e).position = e.position ∧
      (ws.foldl (fun e w => e.setData w.1 w.2) e).hidden = e.hidden ∧
      (ws.foldl (fun e w => e.setData w.1 w.2) e).get "id" = e.get "id" ∧
      ∀ k, (ws.foldl (fun e w => e.setData w.1 w.2) e).get k = afterWrites ws k (e.get k) := by
  induction ws with
  | nil => intro e; exact ⟨rfl, rfl, rfl, rfl, fun _ => rfl⟩
  | cons w ws ih =>
    intro e
    obtain ⟨h1, h2, h3, h4, h5⟩ := ih (e.setData w.1 w.2)
    obtain ⟨f1, f2, f3, f4⟩ := ele_setData_frame e w.1 w.2
    simp only [List.foldl_cons]
    refine ⟨h1.trans f1, h2.trans f2, h3.trans f3, h4.trans f4, fun k => ?_⟩
    rw [h5 k, ele_setData_get]
    rfl

theorem setData_elements (cy : Cy) (a : String) (k : String) (v : JSVal) :
    (cy.setData (.str a) k v).elements =
      cy.elements.map (fun e => if e.get "id" = .str a then e.setData k v else e) := by
  unfold Cy.setData Ele.setData
  split
  · simp
  · rfl

theorem foldl_setData_elements (a : String) (ws : List (String × JSVal)) :
    ∀ cy : Cy, (ws.foldl (fun c w => c.setData (.str a) w.1 w.2) cy).elements =
      cy.elements.map (fun e =>
        if e.get "id" = .str a then ws.foldl (fun e w => e.setData w.1 w.2) e else e) := by
  induction ws with
  | nil => intro cy; simp
  | cons w ws ih =>
    intro cy
    simp only [List.foldl_cons]
    rw [ih, setData_elements, List.map_map]
    apply List.map_congr_left
    intro e _
    simp only [Function.comp]
    by_cases h : e.get "id" = .str a
    · rw [if_pos h, if_pos ((ele_setData_frame e w.1 w.2).2.2.2.trans h), if_pos h]
    · rw [if_neg h, if_neg h, if_neg h]

theorem afterWrites_of_not_mem (ws : List (String × JSVal)) (k : String)
    (h : k ∉ ws.map (fun w => w.1)) : ∀ v, afterWrites ws k v = v := by
  induction ws with
  | nil => intro v; rfl
  | cons w ws ih =>
    intro v
    simp only [List.map_cons, List.mem_cons, not_or] at h
    simp only [afterWrites]
    rw [if_neg (fun hh => h.1 hh.1.symm)]
    exact ih h.2 v

/-- What a sequence of writes `el.data(k, v)` on the element `a` leaves. -/
theorem writes_effect (cy : Cy) (a : String) (ws : List (String × JSVal)) :
    List.Forall₂ (fun e e' =>
        e'.group = e.group ∧ e'.position = e.position ∧ e'.hidden = e.hidden ∧
        (e.get "id" ≠ .str a → e' = e) ∧
        (e.get "id" = .str a → ∀ k, e'.get k = afterWrites ws k (e.get k)))
      cy.elements (ws.foldl (fun c w => c.setData (.str a) w.1 w.2) cy).elements := by
  rw [foldl_setData_elements, List.forall₂_map_right_iff, List.forall₂_same]
  intro e _
  by_cases h : e.get "id" = .str a
  · rw [if_pos h]
    obtain ⟨h1, h2, h3, _, h5⟩ := foldl_ele_setData ws e
    exact ⟨h1, h2, h3, fun hne => absurd h hne, fun _ => h5⟩
  · rw [if_neg h]
    exact ⟨rfl, rfl, rfl, fun _ => rfl, fun hh => absurd hh h⟩

theorem saveEditNode_cy (n : EditingNode) (cy : Cy) :
    (saveEditNode n cy).cy =
      [("label", optVal n.label), ("nodeType", optVal n.type), ("metadata", optVal n.metadata),
        ("shape", objGet NODE_SHAPES (optKey n.type)),
        ("color", objGet NODE_COLORS (optKey n.type)),
        ("role", JSVal.str (strOr n.role "")), ("aliases", .str (strOr n.aliases "")),
        ("status", .str (strOr n.status "")), ("avatarUrl", .str (strOr n.avatarUrl "")),
        ("location", .str (strOr n.location "")), ("dob", .str (strOr n.dob "")),
        ("eventType", .str (strOr n.eventType "")), ("eventDate", .str (strOr n.eventDate "")),
        ("eventLocation", .str (strOr n.eventLocation "")),
        ("eventDescription", .str (strOr n.eventDescription ""))].foldl
        (fun c w => c.setData (.str n.id) w.1 w.2) cy := by
  simp only [saveEditNode]
  split <;> rfl

theorem saveEditEdge_cy (g : EditingEdge) (cy : Cy) :
    (saveEditEdge g cy).cy =
      [("label", (JSVal.str (trimOrEmpty g.customLabel)).orElse (optVal g.relationship)),
        ("relationship", optVal g.relationship), ("weight", g.weight),
        ("color", (objGet RELATIONSHIP_COLORS (optKey g.relationship)).orElse
          (objGet RELATIONSHIP_COLORS "Unknown")),
        ("direction", .str (strOr g.direction "directed")),
        ("customLabel", .str (trimOrEmpty g.customLabel)),
        ("description", .str (trimOrEmpty g.description)),
        ("evidenceRef", .str (trimOrEmpty g.evidenceRef)),
        ("confidence", .str (strOr g.confidence "Confirmed")),
        ("startDate", .str (strOr g.startDate "")), ("endDate", .str (strOr g.endDate "")),
        ("eventDate", .str (strOr g.eventDate "")),
        ("location", .str (trimOrEmpty g.location))].foldl
        (fun c w => c.setData (.str g.id) w.1 w.2) cy := by
  simp only [saveEditEdge]
  split <;> rfl

/-- C18, the claim as stated fails: the node `n1` (Bob) has the role `Boss`;
after `saveEditNode` with an edit state that supplies the label only, its role
is the empty string.  The edge `e3` has the custom label `Wire`; after
`saveEditEdge` with an edit state that supplies the relationship only, its
custom label is the empty string and its display label is the relationship. -/
theorem partial_edit_resets_unsupplied_fields :
    (bossStore.getElementById (.str "n1")).map (fun e => (e.get "label", e.get "role"))
        = some (.str "Bob", .str "Boss") ∧
      labelOnly.role = none ∧
      ((saveEditNode labelOnly bossStore).cy.getElementById (.str "n1")).map
          (fun e => (e.get "label", e.get "role")) = some (.str "Robert", .str "") ∧
      (wiredOrgs.getElementById (.str "e3")).map
          (fun e => (e.get "relationship", e.get "customLabel", e.get "label"))
        = some (.str "Financial", .str "Wire", .str "Wire") ∧
      relationshipOnly.customLabel = none ∧
      ((saveEditEdge relationshipOnly wiredOrgs).cy.getElementById (.str "e3")).map
          (fun e => (e.get "relationship", e.get "customLabel", e.get "label"))
        = some (.str "Family", .str "", .str "Family") := by
  decide!

/-- C18, amended: `saveEditNode` and `saveEditEdge` change the element named by
the edit state only, and of it neither group, position nor visibility.
`saveEditNode` keeps label, nodeType and metadata when the edit state does not
supply them, and shape and color when the table has no entry for the supplied
type; it sets each of role, aliases, status, avatarUrl, location, dob,
eventType, eventDate, eventLocation, eventDescription to the supplied value, or
to the empty string when none (or an empty one) is supplied; every other data
field (tags, parent, id among them) keeps its value.  `saveEditEdge` keeps
relationship and weight when they are not supplied, sets the display label to
the trimmed custom label or else the relationship, sets direction and
confidence to the supplied value or to `directed` and `Confirmed`, sets
customLabel, description, evidenceRef and location to the trimmed supplied value
or the empty string, and the three dates to the supplied value or the empty
string; every other data field (id, source, target, evidenceItems among them)
keeps its value. -/
theorem saveEdit_effect (cy : Cy) :
    (∀ n : EditingNode, List.Forall₂ (fun e e' =>
        e'.group = e.group ∧ e'.position = e.position ∧ e'.hidden = e.hidden ∧
        (e.get "id" ≠ .str n.id → e' = e) ∧
        (e.get "id" = .str n.id →
          e'.get "label" = writtenOr (optVal n.label) (e.get "label") ∧
          e'.get "nodeType" = writtenOr (optVal n.type) (e.get "nodeType") ∧
          e'.get "metadata" = writtenOr (optVal n.metadata) (e.get "metadata") ∧
          e'.get "shape" = writtenOr (objGet NODE_SHAPES (optKey n.type)) (e.get "shape") ∧
          e'.get "color" = writtenOr (objGet NODE_COLORS (optKey n.type)) (e.get "color") ∧
          (∀ kv ∈ [("role", n.role), ("aliases", n.aliases), ("status", n.status),
              ("avatarUrl", n.avatarUrl), ("location", n.location), ("dob", n.dob),
              ("eventType", n.eventType), ("eventDate", n.eventDate),
              ("eventLocation", n.eventLocation), ("eventDescription", n.eventDescription)],
            e'.get kv.1 = .str (strOr kv.2 "")) ∧
          (∀ k, k ∉ nodeEditKeys → e'.get k = e.get k)))
      cy.elements (saveEditNode n cy).cy.elements) ∧
    (∀ g : EditingEdge, List.Forall₂ (fun e e' =>
        e'.group = e.group ∧ e'.position = e.position ∧ e'.hidden = e.hidden ∧
        (e.get "id" ≠ .str g.id → e' = e) ∧
        (e.get "id" = .str g.id →
          e'.get "label" = writtenOr
            ((JSVal.str (trimOrEmpty g.customLabel)).orElse (optVal g.relationship))
            (e.get "label") ∧
          e'.get "relationship" = writtenOr (optVal g.relationship) (e.get "relationship") ∧
          e'.get "weight" = writtenOr g.weight (e.get "weight") ∧
          e'.get "color" = writtenOr ((objGet RELATIONSHIP_COLORS (optKey g.relationship)).orElse
            (objGet RELATIONSHIP_COLORS "Unknown")) (e.get "color") ∧
          e'.get "direction" = .str (strOr g.direction "directed") ∧
          e'.get "confidence" = .str (strOr g.confidence "Confirmed") ∧
          (∀ kv ∈ [("customLabel", g.customLabel), ("description", g.description),
              ("evidenceRef", g.evidenceRef), ("location", g.location)],
            e'.get kv.1 = .str (trimOrEmpty kv.2)) ∧
          (∀ kv ∈ [("startDate", g.startDate), ("endDate", g.endDate),
              ("eventDate", g.eventDate)],
            e'.get kv.1 = .str (strOr kv.2 "")) ∧
          (∀ k, k ∉ edgeEditKeys → e'.get k = e.get k)))
      cy.elements (saveEditEdge g cy).cy.elements) := by
  constructor
  · intro n
    rw [saveEditNode_cy]
    refine (writes_effect cy n.id _).imp ?_
    rintro e e' ⟨h1, h2, h3, h4, h5⟩
    refine ⟨h1, h2, h3, h4, fun hid => ?_⟩
    have h := h5 hid
    refine ⟨?_, ?_, ?_, ?_, ?_, ?_, ?_⟩
    · rw [h]; simp [afterWrites, writtenOr]
    · rw [h]; simp [afterWrites, writtenOr]
    · rw [h]; simp [afterWrites, writtenOr]
    · rw [h]; simp [afterWrites, writtenOr]
    · rw [h]; simp [afterWrites, writtenOr]
    · intro kv hkv
      simp only [List.mem_cons, List.mem_singleton, List.not_mem_nil, or_false] at hkv
      rcases hkv with rfl | rfl | rfl | rfl | rfl | rfl | rfl | rfl | rfl | rfl <;>
        (rw [h]; simp [afterWrites])
    · intro k hk
      rw [h]
      refine afterWrites_of_not_mem _ k ?_ _
      exact hk
  · intro g
    rw [saveEditEdge_cy]
    refine (writes_effect cy g.id _).imp ?_
    rintro e e' ⟨h1, h2, h3, h4, h5⟩
    refine ⟨h1, h2, h3, h4, fun hid => ?_⟩
    have h := h5 hid
    refine ⟨?_, ?_, ?_, ?_, ?_, ?_, ?_, ?_, ?_⟩
    · rw [h]; simp [afterWrites, writtenOr]
    · rw [h]; simp [afterWrites, writtenOr]
    · rw [h]; simp [afterWrites, writtenOr]
    · rw [h]; simp [afterWrites, writtenOr]
    · rw [h]; simp [afterWrites]
    · rw [h]; simp [afterWrites]
    · intro kv hkv
      simp only [List.mem_cons, List.mem_singleton, List.not_mem_nil, or_false] at hkv
      rcases hkv with rfl | rfl | rfl | rfl <;> (rw [h]; simp [afterWrites])
    · intro kv hkv
      simp only [List.mem_cons, List.mem_singleton, List.not_mem_nil, or_false] at hkv
      rcases hkv with rfl | rfl | rfl <;> (rw [h]; simp [afterWrites])
    · intro k hk
      rw [h]
      refine afterWrites_of_not_mem _ k ?_ _
      exact hk

/-- C18, amended, at the stores `bossStore` and `wiredOrgs`: saving an edit
state that supplies only the label keeps the tags and the parent of every node;
saving one that supplies only the relationship keeps the evidence items, the
source and the target of every element. -/
theorem saveEdit_effect_witness :
    List.Forall₂ (fun e e' => e'.get "tags" = e.get "tags" ∧ e'.get "parent" = e.get "parent")
        bossStore.elements (saveEditNode labelOnly bossStore).cy.elements ∧
      List.Forall₂
        (fun e e' => e'.get "evidenceItems" = e.get "evidenceItems" ∧
          e'.get "source" = e.get "source" ∧ e'.get "target" = e.get "target")
        wiredOrgs.elements (saveEditEdge relationshipOnly wiredOrgs).cy.elements :=
  ⟨((saveEdit_effect bossStore).1 labelOnly).imp (fun e e' h => by
      by_cases hid : e.get "id" = .str labelOnly.id
      · exact ⟨(h.2.2.2.2 hid).2.2.2.2.2.2 "tags" (by decide),
          (h.2.2.2.2 hid).2.2.2.2.2.2 "parent" (by decide)⟩
      · rw [h.2.2.2.1 hid]
        exact ⟨rfl, rfl⟩),
    ((saveEdit_effect wiredOrgs).2 relationshipOnly).imp (fun e e' h => by
      by_cases hid : e.get "id" = .str relationshipOnly.id
      · exact ⟨(h.2.2.2.2 hid).2.2.2.2.2.2.2.2 "evidenceItems" (by decide),
          (h.2.2.2.2 hid).2.2.2.2.2.2.2.2 "source" (by decide),
          (h.2.2.2.2 hid).2.2.2.2.2.2.2.2 "target" (by decide)⟩
      · rw [h.2.2.2.1 hid]
        exact ⟨rfl, rfl, rfl⟩)⟩

/-! ### The metadata of a converted element -/

theorem orElse_textOf {t : JSVal} (h : stringIfPresent t = true) :
    t.orElse (.str "") = .str (textOf t) := by
  unfold JSVal.orElse
  split
  · rename_i ht
    simp only [stringIfPresent, ht, Bool.not_true, Bool.false_or] at h
    cases t <;> simp [isString] at h
    rfl
  · rename_i ht
    cases t <;> first | rfl | (simp [JSVal.truthy] at ht; simp [textOf, ht])

theorem mapE_eq_map {α β : Type} (f : α → Except String β) (g : α → β) :
    ∀ xs : List α, (∀ x ∈ xs, f x = .ok (g x)) → mapE f xs = .ok (xs.map g)
  | [], _ => rfl
  | x :: xs, h => by
    simp [mapE, h x (List.mem_cons_self _ _),
      mapE_eq_map f g xs (fun y hy => h y (List.mem_cons_of_mem _ hy))]

theorem type_table_truthy (key : String) (v : JSVal)
    (h : KUMU_TYPE_MAP.lookup key = some v) : v.truthy = true := by
  simp only [KUMU_TYPE_MAP, List.lookup] at h
  repeat' (split at h)
  all_goals first
    | (cases h; rfl)
    | cases h

theorem lookup_perm {l l' : Props} (hp : l.Perm l') (hnd : (l.map (fun p => p.1)).Nodup)
    (k : String) : l.lookup k = l'.lookup k := by
  induction hp with
  | nil => rfl
  | cons x _ ih =>
    obtain ⟨a, b⟩ := x
    simp only [List.map_cons, List.nodup_cons] at hnd
    simp only [List.lookup, ih hnd.2]
  | swap x y l =>
    obtain ⟨a, b⟩ := x
    obtain ⟨c, d⟩ := y
    simp only [List.map_cons, List.nodup_cons, List.mem_cons, not_or] at hnd
    simp only [List.lookup]
    by_cases h1 : k = c
    · subst h1
      have : (k == a) = false := by simpa using hnd.1.1
      simp [this]
    · have : (k == c) = false := by simpa using h1
      simp [this]
  | trans h1 _ ih1 ih2 =>
    rw [ih1 hnd, ih2 ((h1.map _).nodup_iff.mp hnd)]

theorem find?_perm {α : Type} (p : α → Bool) {l l' : List α} (hp : l.Perm l')
    (hu : ∀ x ∈ l, ∀ y ∈ l, p x = true → p y = true → x = y) : l.find? p = l'.find? p := by
  induction hp with
  | nil => rfl
  | cons x _ ih =>
    simp only [List.find?_cons]
    rw [ih (fun a ha b hb => hu a (List.mem_cons_of_mem _ ha) b (List.mem_cons_of_mem _ hb))]
  | swap x y l =>
    simp only [List.find?_cons]
    cases hx : p x <;> cases hy : p y <;> simp only []
    have := hu y (by simp) x (by simp) hy hx
    rw [this]
  | trans h1 _ ih1 ih2 =>
    rw [ih1 hu, ih2 (fun a ha b hb => hu a (h1.mem_iff.mpr ha) b (h1.mem_iff.mpr hb))]

theorem metadataOf_matches_spec (ps : Props)
    (ht : stringIfPresent (attrOf (.obj ps) "element type") = true)
    (hd : stringIfPresent (objGet ps "description") = true)
    (hm : ∀ m ∈ META_ATTRS, isPrimitive (objGet ps m.1) = true)
    (hk : inherited (trim (toLowerCase (textOf (attrOf (.obj ps) "element type")))) = .undefined) :
    metadataOf (.obj ps) = .ok (metadataSpec (attrOf (.obj ps) "element type")
      (objGet ps "description") (objGet ps)) := by
  have hn : (JSVal.obj ps).nullish = false := rfl
  have htags : ∀ r, mapNodeType (.str (textOf (attrOf (.obj ps) "element type"))) = .ok r →
      typeTags r (.str (textOf (attrOf (.obj ps) "element type"))) =
        .ok (specTypeTag (textOf (attrOf (.obj ps) "element type"))) := by
    intro r hr
    generalize textOf (attrOf (.obj ps) "element type") = s at hk hr
    simp only [mapNodeType, normalized_str] at hr
    simp only [typeTags, normalized_str, stringReceiver, specTypeTag]
    by_cases hs : (JSVal.str s).truthy = true
    · simp only [hs, Bool.not_true, Bool.false_eq_true, if_false] at hr ⊢
      cases hr
      by_cases hloc : trim (toLowerCase s) = "location"
      · rw [hloc]
        simp [objGet, KUMU_TYPE_MAP, List.lookup, JSVal.orElse, JSVal.truthy]
      · have hobj : (objGet KUMU_TYPE_MAP (trim (toLowerCase s))).truthy = true ↔
            KUMU_TYPE_MAP.lookup (trim (toLowerCase s)) ≠ none := by
          unfold objGet
          cases hl : KUMU_TYPE_MAP.lookup (trim (toLowerCase s)) with
          | none => simp [hk, JSVal.truthy]
          | some v => simp [type_table_truthy _ v hl]
        by_cases hl : KUMU_TYPE_MAP.lookup (trim (toLowerCase s)) = none
        · have : (objGet KUMU_TYPE_MAP (trim (toLowerCase s))).truthy = false := by
            cases h : (objGet KUMU_TYPE_MAP (trim (toLowerCase s))).truthy
            · rfl
            · exact absurd hl (hobj.mp h)
          simp [hloc, hl, this]
        · have := hobj.mpr hl
          simp [hloc, hl, this]
    · have hs' : s = "" := by
        simpa [JSVal.truthy] using hs
      subst hs'
      have h1 : (JSVal.str "").truthy = false := rfl
      have h2 : trim (toLowerCase "") = "" := by decide
      have h3 : trim "" = "" := by decide
      simp [h1, h2, h3]
  have hdesc : descriptionPart (.obj ps) = .ok (specDescription (textOf (objGet ps "description"))) := by
    simp only [descriptionPart, getProp, orElse_textOf hd, stringReceiver, specDescription]
  have hmeta : mapE (metaPart (.obj ps)) META_ATTRS =
      .ok (META_ATTRS.map (fun m => specAttributeLine m.2 (objGet ps m.1))) := by
    apply mapE_eq_map
    intro m hmem
    obtain ⟨s, hs⟩ := toStr_ok_of_primitive (hm m hmem)
    simp only [metaPart, getProp, specAttributeLine, primitiveText, hs]
    cases hv : (objGet ps m.1).truthy <;> simp
  simp only [metadataOf, getAttr_eq_attrOf hn, orElse_textOf ht]
  cases hr : mapNodeType (.str (textOf (attrOf (.obj ps) "element type"))) with
  | error e =>
    simp only [mapNodeType, normalized_str] at hr
    split at hr <;> cases hr
  | ok r =>
    simp only [buildMetadata, htags r hr, hdesc, hmeta, metadataSpec]

theorem metadataOf_perm {ps ps' : Props} (hp : ps.Perm ps')
    (hnd : (ps.map (fun p => toLowerCase p.1)).Nodup) :
    metadataOf (.obj ps') = metadataOf (.obj ps) := by
  have hnd' : ((ps.map (fun p => p.1)).map toLowerCase).Nodup := by
    simpa [List.map_map, Function.comp] using hnd
  have hkn : (ps.map (fun p => p.1)).Nodup := List.Nodup.of_map toLowerCase hnd'
  have hget : objGet ps' = objGet ps := by
    funext k
    simp only [objGet, lookup_perm hp hkn k]
  have hfind : ∀ key : String,
      (ps'.map (fun p => p.1)).find? (fun k => toLowerCase k = toLowerCase key) =
        (ps.map (fun p => p.1)).find? (fun k => toLowerCase k = toLowerCase key) := by
    intro key
    refine (find?_perm _ (hp.map _) ?_).symm
    intro x hx y hy h1 h2
    simp only [decide_eq_true_eq] at h1 h2
    exact List.inj_on_of_nodup_map hnd' hx hy (h1.trans h2.symm)
  have hattr : ∀ key, getAttr (.obj ps') key = getAttr (.obj ps) key := by
    intro key
    simp only [getAttr, getProp, objectKeys, hget, hfind]
  have hdesc : descriptionPart (.obj ps') = descriptionPart (.obj ps) := by
    simp only [descriptionPart, getProp, hget]
  have hmeta : metaPart (.obj ps') = metaPart (.obj ps) := by
    funext m
    simp only [metaPart, getProp, hget]
  simp only [metadataOf, buildMetadata, hattr, hdesc, hmeta]

theorem convertElement_metadata {pm : PosMap} {el node : JSVal}
    (h : convertElement pm el = .ok node) :
    ∃ m, metadataOf (attrsOf el) = .ok m ∧ dataField node "metadata" = .str m := by
  simp only [convertElement] at h
  split at h
  · cases h
  · rename_i a ha
    have hattrs : attrsOf el = a.orElse (.obj []) := by
      simp only [attrsOf, field, ha]
    split at h
    · cases h
    · rename_i t ht
      split at h
      · cases h
      · rename_i nodeType hnt
        split at h
        · cases h
        · rename_i metadata hmd
          refine ⟨metadata, ?_, ?_⟩
          · simp only [metadataOf, hattrs, ht, hnt, hmd]
          · repeat' (split at h)
            all_goals first
              | (cases h; rfl)
              | cases h

theorem addPosition_eq (posMap : PosMap) {mapEl : JSVal} (h : wellFormedMapItem mapEl = true) :
    addPosition posMap mapEl = .ok
      (if hasPosition mapEl = true then
        posMap.set (primitiveText (field mapEl "element"))
          [("x", field (field mapEl "position") "x"), ("y", field (field mapEl "position") "y")]
      else posMap) := by
  simp only [wellFormedMapItem, Bool.and_eq_true, Bool.not_eq_true'] at h
  obtain ⟨hnull, hel⟩ := h
  obtain ⟨key, hkey⟩ := toStr_ok_of_primitive hel
  simp only [addPosition, getProp_eq_field hnull, hkey, hasPosition, primitiveText]
  cases he : (field mapEl "element").truthy
  · simp
  · cases hp : (field mapEl "position").truthy
    · simp
    · simp only [getProp_eq_field (not_nullish_of_truthy hp)]
      cases hx : (field (field mapEl "position") "x").nullish
      · cases hy : (field (field mapEl "position") "y").nullish <;> simp
      · simp

theorem find?_reverse_cons {α : Type} (p : α → Bool) (x : α) (xs : List α) :
    (x :: xs).reverse.find? p = (xs.reverse.find? p).or (if p x = true then some x else none) := by
  rw [List.reverse_cons, List.find?_append]
  cases h : p x <;> simp [List.find?, h]

theorem foldE_addPosition (mapItems : List JSVal) :
    ∀ posMap : PosMap, mapItems.all wellFormedMapItem = true → posMap.proto = none →
      (∀ it ∈ mapItems, hasPosition it = true → primitiveText (field it "element") ≠ "__proto__") →
      ∃ pm, foldE addPosition posMap mapItems = .ok pm ∧ pm.proto = none ∧
        ∀ key, pm.own.lookup key =
          match mapItems.reverse.find? (carriesPosition key) with
          | some mapEl => some (positionOf mapEl)
          | none => posMap.own.lookup key := by
  induction mapItems with
  | nil =>
    intro posMap _ hproto _
    exact ⟨posMap, rfl, hproto, fun _ => rfl⟩
  | cons it rest ih =>
    intro posMap hwf hproto hkeys
    simp only [List.all_cons, Bool.and_eq_true] at hwf
    have hstep := addPosition_eq posMap hwf.1
    have hproto1 : (if hasPosition it = true then
        posMap.set (primitiveText (field it "element"))
          [("x", field (field it "position") "x"), ("y", field (field it "position") "y")]
      else posMap).proto = none := by
      split
      · rename_i hh
        have := hkeys it (List.mem_cons_self _ _) hh
        simp only [PosMap.set, if_neg this]
        exact hproto
      · exact hproto
    obtain ⟨pm, hpm, hp, hl⟩ := ih _ hwf.2 hproto1
      (fun x hx => hkeys x (List.mem_cons_of_mem _ hx))
    refine ⟨pm, ?_, hp, fun key => ?_⟩
    · simp only [foldE, hstep, hpm]
    · rw [hl key, find?_reverse_cons]
      cases hf : rest.reverse.find? (carriesPosition key) with
      | some m => rfl
      | none =>
        simp only [Option.or]
        by_cases hh : hasPosition it = true
        · have hne := hkeys it (List.mem_cons_self _ _) hh
          simp only [hh, if_true, PosMap.set, if_neg hne, carriesPosition, Bool.true_and]
          by_cases hk : primitiveText (field it "element") = key
          · subst hk
            simp [lookup_setProp_same, positionOf]
          · have hb : (primitiveText (field it "element") == key) = false := by simpa using hk
            simp only [hb, Bool.false_eq_true, if_false]
            exact lookup_setProp_ne _ (fun h => hk h.symm) _
        · simp only [hh, if_false, carriesPosition]
          simp

theorem buildPositionMap_cons (first : JSVal) (rest : List JSVal) :
    buildPositionMap (.arr (first :: rest)) =
      match getProp first "elements" with
      | .error e => .error e
      | .ok els =>
        if !els.truthy then .ok ⟨[], none⟩
        else
          match arrayReceiver "forEach" els with
          | .error e => .error e
          | .ok mapItems => foldE addPosition ⟨[], none⟩ mapItems := by
  have h0 : getProp (.arr (first :: rest)) "0" = .ok first := by
    have hz : (natToString 0 == "0") = true := by decide
    simp [getProp, atIndexKey, List.enum, List.enumFrom, List.find?, hz]
  have hlen : getProp (.arr (first :: rest)) "length" = .ok (.num ((first :: rest).length)) := by
    simp [getProp]
  have hne : (JSVal.num ((first :: rest).length : Nat)) ≠ .num 0 := by
    intro hc
    have := JSVal.num.inj hc
    simp at this
    omega
  have ht : (JSVal.arr (first :: rest)).truthy = true := rfl
  simp only [buildPositionMap, ht, hlen, h0, hne, Bool.not_true, Bool.false_eq_true, if_false]
  try rfl

theorem convertElement_position {pm : PosMap} {el node : JSVal}
    (h : convertElement pm el = .ok node) :
    field node "position" =
      if (pm.get (primitiveText (field el "_id"))).truthy = true then
        pm.get (primitiveText (field el "_id"))
      else .undefined := by
  simp only [convertElement] at h
  repeat' (split at h)
  all_goals (try cases h)
  all_goals
    rename_i hid _ _ _ _ key _ _ _ hkey _ _ _ hpos
    have hk : primitiveText (field el "_id") = key := by
      simp only [primitiveText, field, hid, hkey]
    rw [hk]
    first
      | (rw [if_pos hpos]; rfl)
      | (rw [if_neg hpos]; rfl)

theorem withMarks_self (cy : Cy) : withMarks cy (fun e => e.hidden) = cy := by
  unfold withMarks
  simp

theorem withMarks_update (cy : Cy) (h : Ele → Bool) (id : JSVal) (b : Bool) :
    (withMarks cy h).update id (fun e => { e with hidden := b }) =
      withMarks cy (fun e => if isString id = true ∧ e.get "id" = id then b else h e) := by
  cases id <;> simp only [Cy.update, withMarks, isString, Bool.false_eq_true, false_and, if_false]
  rename_i s
  simp only [List.map_map, true_and]
  congr 1
  apply List.map_congr_left
  intro e _
  simp only [Function.comp]
  have hget : Ele.get { e with hidden := h e } "id" = e.get "id" := rfl
  rw [hget]
  by_cases hid : e.get "id" = JSVal.str s
  · rw [if_pos hid, if_pos hid]
  · rw [if_neg hid, if_neg hid]

theorem withMarks_hideConnectedEdges (cy : Cy) (h : Ele → Bool) (id : JSVal) :
    (withMarks cy h).hideConnectedEdges id =
      withMarks cy (fun e =>
        if e.group = .edges ∧ (e.get "source" = id ∨ e.get "target" = id) then true else h e) := by
  simp only [Cy.hideConnectedEdges, withMarks, List.map_map]
  congr 1
  apply List.map_congr_left
  intro e _
  simp only [Function.comp]
  by_cases hc : e.group = .edges ∧ (e.get "source" = id ∨ e.get "target" = id)
  · rw [if_pos hc, if_pos (show (Ele.group { e with hidden := h e } = .edges ∧
        (Ele.get { e with hidden := h e } "source" = id ∨
          Ele.get { e with hidden := h e } "target" = id)) from hc)]
  · rw [if_neg hc, if_neg (show ¬ (Ele.group { e with hidden := h e } = .edges ∧
        (Ele.get { e with hidden := h e } "source" = id ∨
          Ele.get { e with hidden := h e } "target" = id)) from hc)]

theorem withMarks_getElementById (cy : Cy) (h : Ele → Bool) (id : JSVal) :
    (withMarks cy h).getElementById id =
      (cy.getElementById id).map (fun e => { e with hidden := h e }) := by
  cases id <;> simp only [Cy.getElementById, withMarks, Option.map_none']
  rename_i s
  exact find?_map_of_preserved (fun e : Ele => decide (e.get "id" = JSVal.str s))
    (fun e : Ele => { e with hidden := h e }) (fun _ => rfl) cy.elements

theorem mem_of_getElementById {cy : Cy} {id : JSVal} {e : Ele}
    (h : cy.getElementById id = some e) : e ∈ cy.elements ∧ e.get "id" = id := by
  cases id <;> simp only [Cy.getElementById] at h <;> first | cases h | skip
  exact ⟨List.mem_of_find?_eq_some h, by simpa using List.find?_some h⟩

theorem searchNode_marks (q : String) (cy : Cy) (h : Ele → Bool) (n : Ele) :
    (∃ e, searchNode q (withMarks cy h) n = .error e) ∨
      ∃ h', searchNode q (withMarks cy h) n = .ok (withMarks cy h') := by
  simp only [searchNode]
  split
  · exact Or.inl ⟨_, rfl⟩
  · split
    · exact Or.inl ⟨_, rfl⟩
    · right
      split
      · exact ⟨_, congrArg Except.ok (withMarks_update cy h _ false)⟩
      · refine ⟨fun e =>
          if e.group = .edges ∧ (e.get "source" = n.get "id" ∨ e.get "target" = n.get "id") then
            true
          else if isString (n.get "id") = true ∧ e.get "id" = n.get "id" then true else h e, ?_⟩
        simp only [Cy.hide, withMarks_update, withMarks_hideConnectedEdges]

theorem searchNodes_marks (q : String) (cy : Cy) :
    ∀ (ns : List Ele) (h : Ele → Bool),
      ∃ h', (searchNodes q (withMarks cy h) ns).cy = withMarks cy h'
  | [], h => ⟨h, rfl⟩
  | n :: rest, h => by
    rcases searchNode_marks q cy h n with ⟨e, he⟩ | ⟨h1, h1eq⟩
    · exact ⟨h, by simp only [searchNodes, he]⟩
    · obtain ⟨h', hh⟩ := searchNodes_marks q cy rest h1
      exact ⟨h', by simp only [searchNodes, h1eq, hh]⟩

theorem searchNode_of_strings (q : String) (cy : Cy) (h : Ele → Bool) (n : Ele)
    (hl : stringIfPresent (n.get "label") = true)
    (ht : stringIfPresent (n.get "nodeType") = true) (hid : isString (n.get "id") = true) :
    searchNode q (withMarks cy h) n = .ok (withMarks cy (marksAfterNode q n h)) := by
  simp only [searchNode, orElse_textOf hl, orElse_textOf ht, stringReceiver]
  split
  · rename_i hm
    simp only [Cy.show, withMarks_update, hid, true_and]
    congr 2
    funext e
    simp only [marksAfterNode, hm, if_true]
  · rename_i hm
    simp only [Cy.hide, withMarks_update, withMarks_hideConnectedEdges, hid, true_and]
    congr 2
    funext e
    simp only [marksAfterNode, hm, Bool.false_eq_true, if_false]

theorem searchNodes_of_strings (q : String) (cy : Cy) :
    ∀ (ns : List Ele) (h : Ele → Bool),
      (∀ n ∈ ns, stringIfPresent (n.get "label") = true ∧
        stringIfPresent (n.get "nodeType") = true ∧ isString (n.get "id") = true) →
      (∀ n ∈ ns, ∀ e ∈ cy.elements, e.get "id" = n.get "id" → e.data = n.data) →
      ∃ h', searchNodes q (withMarks cy h) ns = ⟨withMarks cy h', none⟩ ∧
        ∀ e ∈ cy.elements, e.group = .nodes →
          h' e = if e.get "id" ∈ ns.map (fun n => n.get "id") then
              !(includes (toLowerCase (textOf (e.get "label"))) q ||
                includes (toLowerCase (textOf (e.get "nodeType"))) q)
            else h e
  | [], h, _, _ => ⟨h, rfl, fun _ _ _ => by simp⟩
  | n :: rest, h, hs, hc => by
    obtain ⟨hl, ht, hid⟩ := hs n (List.mem_cons_self _ _)
    have hstep := searchNode_of_strings q cy h n hl ht hid
    obtain ⟨h', hrun, hh⟩ := searchNodes_of_strings q cy rest (marksAfterNode q n h)
      (fun m hm => hs m (List.mem_cons_of_mem _ hm))
      (fun m hm => hc m (List.mem_cons_of_mem _ hm))
    refine ⟨h', by simp only [searchNodes, hstep, hrun], fun e he hg => ?_⟩
    rw [hh e he hg]
    simp only [marksAfterNode]
    by_cases hin : e.get "id" ∈ rest.map (fun n => n.get "id")
    · have hin' : e.get "id" ∈ (n :: rest).map (fun n => n.get "id") := by
        simp only [List.map_cons, List.mem_cons]
        exact Or.inr hin
      rw [if_pos hin, if_pos hin']
    · rw [if_neg hin]
      have hne : ¬ (e.group = .edges ∧ (e.get "source" = n.get "id" ∨ e.get "target" = n.get "id")) := by
        rw [hg]
        intro hh
        exact absurd hh.1 (by decide)
      by_cases heq : e.get "id" = n.get "id"
      · have hin' : e.get "id" ∈ (n :: rest).map (fun n => n.get "id") := by
          simp only [List.map_cons, List.mem_cons]
          exact Or.inl heq
        have hd := hc n (List.mem_cons_self _ _) e he heq
        have hlab : e.get "label" = n.get "label" := by simp only [Ele.get, hd]
        have hty : e.get "nodeType" = n.get "nodeType" := by simp only [Ele.get, hd]
        rw [if_pos hin', if_neg hne, hlab, hty]
        simp only [heq, if_true]
        cases includes (toLowerCase (textOf (n.get "label"))) q ||
          includes (toLowerCase (textOf (n.get "nodeType"))) q <;> rfl
      · have hin' : ¬ e.get "id" ∈ (n :: rest).map (fun n => n.get "id") := by
          simp only [List.map_cons, List.mem_cons, not_or]
          exact ⟨heq, hin⟩
        rw [if_neg hin', if_neg hne, if_neg heq, if_neg heq]
        simp

theorem displayed_congr (cy : Cy) (h h' : Ele → Bool)
    (hn : ∀ e ∈ cy.elements, e.group = .nodes → h' e = h e)
    (hp : ∀ e ∈ cy.elements, namesNoEdge cy (e.get "parent") = true) :
    ∀ (fuel : Nat) (id : JSVal), namesNoEdge cy id = true →
      (withMarks cy h').displayedWithAncestors fuel id =
        (withMarks cy h).displayedWithAncestors fuel id
  | 0, _, _ => rfl
  | fuel + 1, id, hid => by
    simp only [Cy.displayedWithAncestors, withMarks_getElementById]
    cases hg : cy.getElementById id with
    | none => rfl
    | some e =>
      have hmem := (mem_of_getElementById hg).1
      have hgrp : e.group = .nodes := by
        simpa [namesNoEdge, hg] using hid
      simp only [Option.map_some', hn e hmem hgrp]
      have := displayed_congr cy h h' hn hp fuel (e.get "parent") (hp e hmem)
      simp only [Ele.get] at this ⊢
      rw [this]

theorem visible_congr (cy : Cy) (h h' : Ele → Bool)
    (hn : ∀ e ∈ cy.elements, e.group = .nodes → h' e = h e)
    (hp : ∀ e ∈ cy.elements, namesNoEdge cy (e.get "parent") = true)
    (id : JSVal) (hid : namesNoEdge cy id = true) :
    (withMarks cy h').visible id = (withMarks cy h).visible id := by
  simp only [Cy.visible, withMarks_getElementById]
  cases hg : cy.getElementById id with
  | none => rfl
  | some e =>
    have hgrp : e.group = .nodes := by
      simpa [namesNoEdge, hg] using hid
    have hlen : ∀ g, (withMarks cy g).elements.length = cy.elements.length := by
      intro g
      simp [withMarks]
    simp only [Option.map_some', hgrp, hlen]
    exact displayed_congr cy h h' hn hp _ id hid

theorem searchEdge_marks (cy : Cy) (h : Ele → Bool) (n : Ele)
    (hid : isString (n.get "id") = true) :
    searchEdge (withMarks cy h) n = withMarks cy (fun e =>
      if e.get "id" = n.get "id" then
        !((withMarks cy h).visible (n.get "source") && (withMarks cy h).visible (n.get "target"))
      else h e) := by
  simp only [searchEdge]
  split
  · rename_i hv
    simp only [Cy.show, withMarks_update, hid, true_and, hv, Bool.not_true]
  · rename_i hv
    simp only [Bool.not_eq_true] at hv
    simp only [Cy.hide, withMarks_update, hid, true_and, hv, Bool.not_false]

theorem searchEdges_marks (cy : Cy) (base : Ele → Bool)
    (hp : ∀ e ∈ cy.elements, namesNoEdge cy (e.get "parent") = true) :
    ∀ (es : List Ele) (h : Ele → Bool),
      (∀ e ∈ cy.elements, e.group = .nodes → h e = base e) →
      (∀ n ∈ es, isString (n.get "id") = true ∧ namesNoEdge cy (n.get "source") = true ∧
        namesNoEdge cy (n.get "target") = true ∧
        ∀ e ∈ cy.elements, e.get "id" = n.get "id" → e.group = .edges ∧ e.data = n.data) →
      ∃ h', es.foldl searchEdge (withMarks cy h) = withMarks cy h' ∧
        (∀ e ∈ cy.elements, e.group = .nodes → h' e = base e) ∧
        ∀ e ∈ cy.elements, e.group = .edges →
          h' e = if e.get "id" ∈ es.map (fun n => n.get "id") then
              !((withMarks cy base).visible (e.get "source") &&
                (withMarks cy base).visible (e.get "target"))
            else h e
  | [], h, hb, _ => ⟨h, rfl, hb, fun _ _ _ => by simp⟩
  | n :: rest, h, hb, hes => by
    obtain ⟨hid, hsrc, htgt, hcons⟩ := hes n (List.mem_cons_self _ _)
    have hstep := searchEdge_marks cy h n hid
    rw [visible_congr cy base h hb hp _ hsrc, visible_congr cy base h hb hp _ htgt] at hstep
    have hb1 : ∀ e ∈ cy.elements, e.group = .nodes →
        (fun e : Ele => if e.get "id" = n.get "id" then
          !((withMarks cy base).visible (n.get "source") &&
            (withMarks cy base).visible (n.get "target"))
        else h e) e = base e := by
      intro e he hg
      have hne : e.get "id" ≠ n.get "id" := by
        intro heq
        have := (hcons e he heq).1
        rw [hg] at this
        exact absurd this (by decide)
      simp only [if_neg hne]
      exact hb e he hg
    obtain ⟨h', hrun, hnodes, hedges⟩ := searchEdges_marks cy base hp rest _ hb1
      (fun m hm => hes m (List.mem_cons_of_mem _ hm))
    refine ⟨h', by simp only [List.foldl_cons, hstep, hrun], hnodes, fun e he hg => ?_⟩
    rw [hedges e he hg]
    by_cases hin : e.get "id" ∈ rest.map (fun n => n.get "id")
    · have hin' : e.get "id" ∈ (n :: rest).map (fun n => n.get "id") := by
        simp only [List.map_cons, List.mem_cons]
        exact Or.inr hin
      rw [if_pos hin, if_pos hin']
    · rw [if_neg hin]
      by_cases heq : e.get "id" = n.get "id"
      · have hin' : e.get "id" ∈ (n :: rest).map (fun n => n.get "id") := by
          simp only [List.map_cons, List.mem_cons]
          exact Or.inl heq
        have hd := (hcons e he heq).2
        have hs : e.get "source" = n.get "source" := by simp only [Ele.get, hd]
        have ht : e.get "target" = n.get "target" := by simp only [Ele.get, hd]
        rw [if_pos hin', if_pos heq, hs, ht]
      · have hin' : ¬ e.get "id" ∈ (n :: rest).map (fun n => n.get "id") := by
          simp only [List.map_cons, List.mem_cons, not_or]
          exact ⟨heq, hin⟩
        rw [if_neg hin', if_neg heq]

theorem foldl_searchEdge_marks (cy : Cy) :
    ∀ (es : List Ele) (h : Ele → Bool), ∃ h', es.foldl searchEdge (withMarks cy h) = withMarks cy h'
  | [], h => ⟨h, rfl⟩
  | n :: rest, h => by
    have hstep : ∃ h1, searchEdge (withMarks cy h) n = withMarks cy h1 := by
      simp only [searchEdge]
      split
      · exact ⟨_, withMarks_update cy h _ false⟩
      · exact ⟨_, withMarks_update cy h _ true⟩
    obtain ⟨h1, hh1⟩ := hstep
    obtain ⟨h', hh'⟩ := foldl_searchEdge_marks cy rest h1
    exact ⟨h', by simp only [List.foldl_cons, hh1, hh']⟩

theorem withMarks_edges (cy : Cy) (h : Ele → Bool) :
    (withMarks cy h).edges = cy.edges.map (fun e => { e with hidden := h e }) := by
  simp only [Cy.edges, withMarks, List.filter_map]
  rfl

theorem handleSearch_marks (cy : Cy) (query : String) :
    ∃ h, (handleSearch query cy).cy = withMarks cy h := by
  simp only [handleSearch]
  split
  · exact ⟨fun _ => false, rfl⟩
  · obtain ⟨h1, hh1⟩ := searchNodes_marks (toLowerCase query) cy cy.nodes (fun e => e.hidden)
    rw [withMarks_self] at hh1
    cases hout : searchNodes (toLowerCase query) cy cy.nodes with
    | mk cy1 t =>
      rw [hout] at hh1
      simp only at hh1
      subst hh1
      cases t with
      | some e => exact ⟨h1, rfl⟩
      | none => exact foldl_searchEdge_marks cy _ h1

theorem handleSearch_of_searchable (cy : Cy) (query : String) (hq : trim query ≠ "")
    (hs : Searchable cy) :
    ∃ h1 h2, handleSearch query cy = ⟨withMarks cy h2, none⟩ ∧
      (∀ e ∈ cy.elements, e.group = .nodes → h2 e = h1 e) ∧
      (∀ e ∈ cy.elements, e.group = .nodes → h1 e = !matchesQuery query e) ∧
      ∀ e ∈ cy.elements, e.group = .edges →
        h2 e = !((withMarks cy h1).visible (e.get "source") &&
          (withMarks cy h1).visible (e.get "target")) := by
  obtain ⟨hnd, hid, hp, hends, hstr⟩ := hs
  have huniq : ∀ n ∈ cy.elements, ∀ e ∈ cy.elements, e.get "id" = n.get "id" → e = n :=
    fun n hn e he heq => List.inj_on_of_nodup_map hnd he hn heq
  have hnodes : ∀ n ∈ cy.nodes, n ∈ cy.elements ∧ n.group = .nodes := by
    intro n hn
    have := List.mem_filter.mp hn
    exact ⟨this.1, by simpa using this.2⟩
  have hedges : ∀ n ∈ cy.edges, n ∈ cy.elements ∧ n.group = .edges := by
    intro n hn
    have := List.mem_filter.mp hn
    exact ⟨this.1, by simpa using this.2⟩
  obtain ⟨h1, hrun1, hh1⟩ := searchNodes_of_strings (toLowerCase query) cy cy.nodes
    (fun e => e.hidden)
    (fun n hn => ⟨(hstr n hn).1, (hstr n hn).2, hid n (hnodes n hn).1⟩)
    (fun n hn e he heq => by rw [huniq n (hnodes n hn).1 e he heq])
  rw [withMarks_self] at hrun1
  obtain ⟨h2, hrun2, hn2, he2⟩ := searchEdges_marks cy h1 hp
    (cy.edges.map (fun e => { e with hidden := h1 e })) h1 (fun _ _ _ => rfl)
    (by
      intro n' hn'
      obtain ⟨n, hn, rfl⟩ := List.mem_map.mp hn'
      refine ⟨hid n (hedges n hn).1, (hends n hn).1, (hends n hn).2, fun e he heq => ?_⟩
      have : e = n := huniq n (hedges n hn).1 e he heq
      subst this
      exact ⟨(hedges e hn).2, rfl⟩)
  refine ⟨h1, h2, ?_, hn2, ?_, ?_⟩
  · simp only [handleSearch, if_neg hq, hrun1, withMarks_edges, hrun2]
  · intro e he hg
    have hmem : e.get "id" ∈ cy.nodes.map (fun n => n.get "id") :=
      List.mem_map_of_mem _ (List.mem_filter.mpr ⟨he, by simpa using hg⟩)
    rw [hh1 e he hg, if_pos hmem]
    rfl
  · intro e he hg
    have hmem : e.get "id" ∈
        (cy.edges.map (fun e => ({ e with hidden := h1 e } : Ele))).map (fun n => n.get "id") := by
      rw [List.map_map]
      exact List.mem_map_of_mem _ (List.mem_filter.mpr ⟨he, by simpa using hg⟩)
    rw [he2 e he hg, if_pos hmem]

